import Mathlib

/-!
Verification development for the PRESTO dataset-building scripts.

Strings are modelled as lists of characters (`Str`).  Python's
`str.replace` is modelled by `pyReplace`; the two molecule pipelines
(`scripts/name_conversion/molecule_build_name_conversion_s2f_smol.py`,
suffix `_s2f`, and
`scripts/build_dataset/name_conversion/molecule_build_name_conversion_i2s_smol.py`,
suffix `_i2s`) and the multi-image builder
(`scripts/llava_gpt_build_multi_image_finetune_dataset.py`) are embedded
as pure functions.  External collaborators (the chemistry toolkit's
`convert_to_canonical_smiles`, the `selfies` encoder, the chat-completion
service, and the random number generator) are passed in as explicit
parameters; a fallible external call returns an `Option`.
-/

abbrev Str := List Char

/-- Fuelled left-to-right replacement scan; `fuel` bounds the recursion
depth so that the function is structurally recursive and computes. -/
def replaceFuel (pat v : Str) : Nat → Str → Str
  | 0, s => s
  | fuel + 1, s =>
    match s with
    | [] => []
    | c :: cs =>
      if pat ≠ [] ∧ pat <+: (c :: cs) then
        v ++ replaceFuel pat v fuel ((c :: cs).drop pat.length)
      else
        c :: replaceFuel pat v fuel cs

/-- Python `s.replace(pat, v)` for a non-empty pattern `pat`: scan left to
right and replace non-overlapping occurrences, leftmost first.  (For the
empty pattern this model returns `s` unchanged; the scripts only replace
the non-empty patterns `"<INPUT>"` and `"<OUTPUT>"`.) -/
def pyReplace (pat v s : Str) : Str := replaceFuel pat v s.length s

/-- Fuelled left-to-right occurrence-counting scan. -/
def countFuel (pat : Str) : Nat → Str → Nat
  | 0, _ => 0
  | fuel + 1, s =>
    match s with
    | [] => 0
    | c :: cs =>
      if pat ≠ [] ∧ pat <+: (c :: cs) then
        1 + countFuel pat fuel ((c :: cs).drop pat.length)
      else
        countFuel pat fuel cs

/-- Python `s.count(pat)` for a non-empty pattern: the number of
non-overlapping occurrences found by a left-to-right scan. -/
def pyCount (pat s : Str) : Nat := countFuel pat s.length s

/-- Occurrence of `pat` at character position `i` of `s`. -/
def occursAt (pat s : Str) (i : Nat) : Prop := pat <+: s.drop i

instance (pat s : Str) (i : Nat) : Decidable (occursAt pat s i) := by
  unfold occursAt; infer_instance

/-- Split `s` around the first occurrence of `pat`, returning the parts
before and after it, or `none` when `pat` does not occur.  (Proof device
used to name the concrete pre/suffix parts of the prompt templates.) -/
def splitFirst (pat : Str) : Str → Option (Str × Str)
  | [] => none
  | c :: cs =>
    if pat <+: (c :: cs) then some ([], (c :: cs).drop pat.length)
    else (splitFirst pat cs).map fun pr => (c :: pr.1, pr.2)

/-! ## Constants shared by the two molecule pipeline scripts

Both scripts define identical `MOLECULE_TOKEN`, `SYSTEM_PROMPT` and
`FEW_SHOT_PROMPT` strings; they are embedded once. -/

def MOLECULE_TOKEN : Str := "<molecule_2d>".data

def SYSTEM_PROMPT : Str :=
  "You are a chemist. Please follow the instructions to convert the structure to the corresponding name.".data

def FEW_SHOT_PROMPT : Str := "Here are some examples of name conversion.".data

def INPUT_PH : Str := "<INPUT>".data

def OUTPUT_PH : Str := "<OUTPUT>".data

/-- One entry of a `PROMPT_TEMPLATES` catalog: an input template containing
`<INPUT>` and an output template containing `<OUTPUT>`. -/
structure Template where
  input : Str
  output : Str

/-- The `PROMPT_TEMPLATES` catalog of the s2f (SMILES-to-formula) script. -/
def PROMPT_TEMPLATES_S2F : List Template := [
  ⟨"<INPUT> is the representation of a molecule. What is its molecular formula?".data,
   "<OUTPUT>".data⟩,
  ⟨"Convert the representation of a molecule <INPUT> into molecular formula.".data,
   "<OUTPUT>".data⟩,
  ⟨"What is the formula of the molecule <INPUT> ?".data,
   "<OUTPUT>".data⟩,
  ⟨"Can you give the molecular molecular formula of <INPUT> ?".data,
   "Sure. <OUTPUT>".data⟩,
  ⟨"Please write the molecular formula of the molecule <INPUT> .".data,
   "<OUTPUT>".data⟩,
  ⟨"Given the representation <INPUT>, what would be its molecular formula?".data,
   "It is <OUTPUT> .".data⟩,
  ⟨"The representation <INPUT> represents a specific molecule. Can you reveal its molecular formula?".data,
   "Sure. It's <OUTPUT> .".data⟩,
  ⟨"Considering the code <INPUT>, can you determine the corresponding molecular formula?".data,
   "It would be <OUTPUT> .".data⟩,
  ⟨"Can you tell me the molecular formula of <INPUT> ?".data,
   "<OUTPUT>".data⟩,
  ⟨"I'd like to know the molecular formula of <INPUT> . Can you tell me?".data,
   "Sure. It's <OUTPUT> .".data⟩,
  ⟨"What is the molecular formula for the molecule denoted by <INPUT> ?".data,
   "<OUTPUT>".data⟩,
  ⟨"What is the molecular formula of <INPUT> ?".data,
   "The molecular formula is <OUTPUT> .".data⟩,
  ⟨"Please provide the molecular formula for <INPUT> .".data,
   "<OUTPUT>".data⟩]

/-- The `PROMPT_TEMPLATES` catalog of the i2s (IUPAC-name-to-SMILES) script. -/
def PROMPT_TEMPLATES_I2S : List Template := [
  ⟨"<INPUT> is the IUPAC name of a molecule. Please give its SMILES representation.".data,
   "<OUTPUT>".data⟩,
  ⟨"Convert the IUPAC name of a molecule <INPUT> into SMILES representation.".data,
   "<OUTPUT>".data⟩,
  ⟨"What is the SMILES representation of the molecule with IUPAC name <INPUT> ?".data,
   "<OUTPUT>".data⟩,
  ⟨"Can you give the SMILES notation of the molecule <INPUT> ?".data,
   "Sure. <OUTPUT>".data⟩,
  ⟨"Please write the SMILES representation of the molecule <INPUT> .".data,
   "<OUTPUT>".data⟩,
  ⟨"<INPUT> The above is the IUPAC name of a molecule. Write its SMILES notation.".data,
   "<OUTPUT>".data⟩,
  ⟨"The IUPAC name of a certain molecule is <INPUT> . Can you provide its SMILES representation?".data,
   "The SMILES representation is <OUTPUT> .".data⟩,
  ⟨"Please identify the SMILES representation of the molecule named <INPUT> .".data,
   "The molecule's SMILES representation is <OUTPUT> .".data⟩,
  ⟨"For the molecule with <INPUT> as the IUPAC name, what is the corresponding SMILES representation?".data,
   "The corresponding SMILES representation is <OUTPUT> .".data⟩,
  ⟨"What is the SMILES notation for <INPUT> ?".data,
   "It's <OUTPUT> .".data⟩,
  ⟨"Could you provide the SMILES for <INPUT> ?".data,
   "Of course. It's <OUTPUT> .".data⟩,
  ⟨"Can you tell me the SMILES representation for the molecule <INPUT> ?".data,
   "Sure. <OUTPUT> .".data⟩,
  ⟨"What is the SMILES representation for <INPUT> ?".data,
   "<OUTPUT>".data⟩]

/-! ## Data model -/

/-- Modelled from the spec: `bioagent/constants.py` is not under `src/`;
the spec's section 3 lists a conversation's turns as system, user and
assistant, so the three role constants are modelled as those words. -/
def ROLE_SYSTEM : Str := "system".data

/-- Modelled from the spec: see `ROLE_SYSTEM`. -/
def ROLE_USER : Str := "user".data

/-- Modelled from the spec: see `ROLE_SYSTEM`. -/
def ROLE_ASSISTANT : Str := "assistant".data

/-- One chat turn. -/
structure Message where
  role : Str
  content : Str
deriving DecidableEq

/-- Value of a `molecules` field entry: the s2f script stores a string,
the i2s script stores an empty Python list. -/
inductive MolVal where
  | str : Str → MolVal
  | emptyList : MolVal
deriving DecidableEq

/-- The `molecules` dictionary of an emitted record. -/
structure Molecules where
  selfies : MolVal
  smiles : MolVal
deriving DecidableEq

/-- A raw input record (one JSON line with `input` and `output` fields). -/
structure RawRecord where
  input : Str
  output : Str
deriving DecidableEq

/-- An emitted conversation record. -/
structure ConvRecord where
  id : Nat
  molecules : Molecules
  ground_truth : Str
  messages : List Message
deriving DecidableEq

/-! ## The s2f pipeline -/

/-- Embeds `process_input` of the s2f script (the i2s script defines an
identical function).  The external collaborators
`convert_to_canonical_smiles` (`canon`) and `selfies.encoder` (`enc`) are
parameters returning `none` on failure; `none` overall models a raised
exception (`CanonicalizationError`, `EncodingError`, or the unsupported
format `ValueError`). -/
def process_input (canon enc : Str → Option Str) (input : Str)
    (format : Str) (token : Bool) : Option (Str × Str × Str) := do
  let smiles ← canon input
  let selfies ← enc smiles
  let molecule ←
    if token then some MOLECULE_TOKEN
    else if format = "smiles".data then some smiles
    else if format = "selfies".data then some selfies
    else none
  return (selfies, smiles, molecule)

/-- Embeds `conversation_train` of the s2f script.  The uniformly random
`random.choice(PROMPT_TEMPLATES)` is modelled by the explicit choice
`tidx`. -/
def conversation_train_s2f (canon enc : Str → Option Str)
    (tidx : Fin PROMPT_TEMPLATES_S2F.length) (id : Nat)
    (input output : Str) (format : Str) (token : Bool) : Option ConvRecord := do
  let (selfies, smiles, molecule) ← process_input canon enc input format token
  let prompt_template := PROMPT_TEMPLATES_S2F.get tidx
  let input_template := pyReplace INPUT_PH molecule prompt_template.input
  let output_template := pyReplace OUTPUT_PH output prompt_template.output
  return { id := id,
           molecules := ⟨MolVal.str selfies, MolVal.str smiles⟩,
           ground_truth := output,
           messages := [⟨ROLE_SYSTEM, SYSTEM_PROMPT⟩,
                        ⟨ROLE_USER, input_template⟩,
                        ⟨ROLE_ASSISTANT, output_template⟩] }

/-- Embeds the rendered few-shot line
`f"Few-shot example {i+1}: {example['input']} -> {example['output']}"`. -/
def few_shot_line (i : Nat) (ex : RawRecord) : Str :=
  "Few-shot example ".data ++ (Nat.repr (i + 1)).data ++ ": ".data ++
    ex.input ++ " -> ".data ++ ex.output

/-- Embeds the joined few-shot block of `conversation_test`. -/
def few_shot_block (fs : List RawRecord) : Str :=
  (List.intersperse "\n".data ((fs.enum).map fun p => few_shot_line p.1 p.2)).flatten

/-- Embeds `conversation_test` of the s2f script.  `few_shots` is the
Python argument, which may be `None` (`none`) or a list; the Python
`if not few_shots` test is falsy both for `None` and for an empty list. -/
def conversation_test_s2f (canon enc : Str → Option Str)
    (tidx : Fin PROMPT_TEMPLATES_S2F.length) (id : Nat)
    (input output : Str) (few_shots : Option (List RawRecord))
    (format : Str) (token : Bool) : Option ConvRecord := do
  let (selfies, smiles, _molecule) ← process_input canon enc input format token
  let prompt_template := PROMPT_TEMPLATES_S2F.get tidx
  let input_template := pyReplace INPUT_PH _molecule prompt_template.input
  let content :=
    match few_shots with
    | none => input_template
    | some [] => input_template
    | some fs =>
        FEW_SHOT_PROMPT ++ "\n".data ++ few_shot_block fs ++ "\n".data ++ input_template
  return { id := id,
           molecules := ⟨MolVal.str selfies, MolVal.str smiles⟩,
           ground_truth := output,
           messages := [⟨ROLE_SYSTEM, SYSTEM_PROMPT⟩,
                        ⟨ROLE_USER, content⟩] }

/-! ## The i2s pipeline

Note that in the i2s script `conversation_train` and `conversation_test`
do not call `process_input`: they substitute the raw `input` string into
the template, ignore the `format` and `token` arguments, and store empty
lists in the `molecules` field.  They perform no fallible operation, so
they are total. -/

/-- Embeds `conversation_train` of the i2s script. -/
def conversation_train_i2s (tidx : Fin PROMPT_TEMPLATES_I2S.length) (id : Nat)
    (input output : Str) (format : Str) (token : Bool) : ConvRecord :=
  let prompt_template := PROMPT_TEMPLATES_I2S.get tidx
  let input_template := pyReplace INPUT_PH input prompt_template.input
  let output_template := pyReplace OUTPUT_PH output prompt_template.output
  { id := id,
    molecules := ⟨MolVal.emptyList, MolVal.emptyList⟩,
    ground_truth := output,
    messages := [⟨ROLE_SYSTEM, SYSTEM_PROMPT⟩,
                 ⟨ROLE_USER, input_template⟩,
                 ⟨ROLE_ASSISTANT, output_template⟩] }

/-- Embeds `conversation_test` of the i2s script. -/
def conversation_test_i2s (tidx : Fin PROMPT_TEMPLATES_I2S.length) (id : Nat)
    (input output : Str) (few_shots : Option (List RawRecord))
    (format : Str) (token : Bool) : ConvRecord :=
  let prompt_template := PROMPT_TEMPLATES_I2S.get tidx
  let input_template := pyReplace INPUT_PH input prompt_template.input
  let content :=
    match few_shots with
    | none => input_template
    | some [] => input_template
    | some fs =>
        FEW_SHOT_PROMPT ++ "\n".data ++ few_shot_block fs ++ "\n".data ++ input_template
  { id := id,
    molecules := ⟨MolVal.emptyList, MolVal.emptyList⟩,
    ground_truth := output,
    messages := [⟨ROLE_SYSTEM, SYSTEM_PROMPT⟩,
                 ⟨ROLE_USER, content⟩] }

/-- Embeds `generate_few_shot_examples` (identical in both scripts).
`shuffled` models `sorted(rows, key=lambda x: random.random())`, a random
permutation of the candidate pool supplied by the caller; `random.sample`
of `num_examples` elements is modelled as taking the first `num_examples`
of a shuffled pool and raises `ValueError` (here `.error ()`) when the
requested count exceeds the pool size.  `num_examples` may be Python
`None` (`none`); `if not num_examples` is truthy for `None` and `0`. -/
def generate_few_shot_examples (shuffled : List RawRecord)
    (num_examples : Option Nat) : Except Unit (Option (List RawRecord)) :=
  match num_examples with
  | none => .ok none
  | some 0 => .ok none
  | some k =>
      if k ≤ shuffled.length then .ok (some (shuffled.take k))
      else .error ()

/-- The split names of the molecule pipelines. -/
inductive Split where
  | train | dev | test

/-- Embeds the body of the `gen(split)` generator of the s2f script:
`for id, item in enumerate(dataset[split])`, with the `try ... except:
pass` skip-and-continue modelled by dropping `none` results.  `start` is
the current enumeration index; `choose` models the per-record
`random.choice` template index and `shuffle` the random permutation used
by `generate_few_shot_examples` (invoked with `num_examples=0`). -/
def genAux (assemble : Nat → RawRecord → Option ConvRecord) :
    Nat → List RawRecord → List ConvRecord
  | _, [] => []
  | start, item :: rest =>
    match assemble start item with
    | some result => result :: genAux assemble (start + 1) rest
    | none => genAux assemble (start + 1) rest

/-- The per-record assembly of the s2f `gen(split)` body. -/
def assemble_s2f (canon enc : Str → Option Str)
    (choose : Nat → Fin PROMPT_TEMPLATES_S2F.length)
    (shuffle : List RawRecord → List RawRecord)
    (split : Split) (rows : List RawRecord) (format : Str) (token : Bool)
    (id : Nat) (item : RawRecord) : Option ConvRecord :=
  match split with
  | .train => conversation_train_s2f canon enc (choose id) id item.input item.output format token
  | .dev => conversation_train_s2f canon enc (choose id) id item.input item.output format token
  | .test =>
      match generate_few_shot_examples (shuffle rows) (some 0) with
      | .ok fs => conversation_test_s2f canon enc (choose id) id item.input item.output fs format token
      | .error _ => none

/-- Embeds the s2f `gen(split)` generator over the rows of one split. -/
def gen_s2f (canon enc : Str → Option Str)
    (choose : Nat → Fin PROMPT_TEMPLATES_S2F.length)
    (shuffle : List RawRecord → List RawRecord)
    (split : Split) (format : Str) (token : Bool)
    (rows : List RawRecord) : List ConvRecord :=
  genAux (assemble_s2f canon enc choose shuffle split rows format token) 0 rows

/-- The per-record assembly of the i2s `gen(split)` body. -/
def assemble_i2s (choose : Nat → Fin PROMPT_TEMPLATES_I2S.length)
    (shuffle : List RawRecord → List RawRecord)
    (split : Split) (rows : List RawRecord) (format : Str) (token : Bool)
    (id : Nat) (item : RawRecord) : Option ConvRecord :=
  match split with
  | .train => some (conversation_train_i2s (choose id) id item.input item.output format token)
  | .dev => some (conversation_train_i2s (choose id) id item.input item.output format token)
  | .test =>
      match generate_few_shot_examples (shuffle rows) (some 0) with
      | .ok fs => some (conversation_test_i2s (choose id) id item.input item.output fs format token)
      | .error _ => none

/-- Embeds the i2s `gen(split)` generator over the rows of one split. -/
def gen_i2s (choose : Nat → Fin PROMPT_TEMPLATES_I2S.length)
    (shuffle : List RawRecord → List RawRecord)
    (split : Split) (format : Str) (token : Bool)
    (rows : List RawRecord) : List ConvRecord :=
  genAux (assemble_i2s choose shuffle split rows format token) 0 rows

/-- The test-record rendering as composed in the s2f `gen`:
`conversation_test(id, input, output, generate_few_shot_examples(rows,
num_examples), ...)`, with the generator's `try`-block mapping a sampling
exception (`ValueError` from `random.sample`) to a dropped record
(`none`). -/
def render_test_s2f (canon enc : Str → Option Str)
    (tidx : Fin PROMPT_TEMPLATES_S2F.length) (id : Nat) (input output : Str)
    (pool : List RawRecord) (num_examples : Option Nat)
    (shuffle : List RawRecord → List RawRecord)
    (format : Str) (token : Bool) : Option ConvRecord :=
  match generate_few_shot_examples (shuffle pool) num_examples with
  | .ok fs => conversation_test_s2f canon enc tidx id input output fs format token
  | .error _ => none

/-- The test-record rendering as composed in the i2s `gen`; see
`render_test_s2f`. -/
def render_test_i2s (tidx : Fin PROMPT_TEMPLATES_I2S.length) (id : Nat)
    (input output : Str) (pool : List RawRecord) (num_examples : Option Nat)
    (shuffle : List RawRecord → List RawRecord)
    (format : Str) (token : Bool) : Option ConvRecord :=
  match generate_few_shot_examples (shuffle pool) num_examples with
  | .ok fs => some (conversation_test_i2s tidx id input output fs format token)
  | .error _ => none

/-! ## CLI `--token` parsing -/

/-- Python truthiness of a string: `bool(s)` is `True` exactly when `s`
is non-empty. -/
def pythonBoolOfString (s : Str) : Bool := s ≠ []

/-- Embeds `parser.add_argument("--token", type=bool, default=True)` of
both molecule scripts: a missing option yields the default `True`; a
supplied value string is converted with Python's `bool`. -/
def parse_token_flag (supplied : Option Str) : Bool :=
  match supplied with
  | none => true
  | some s => pythonBoolOfString s

/-! ## The multi-image builder -/

/-- Modelled from the spec: `multi_token/constants.py` is not under
`src/`; the spec's section 3 lists the multi-image record's turns as user
and assistant. -/
def ROLE_USER_MI : Str := "user".data

/-- Modelled from the spec: see `ROLE_USER_MI`. -/
def ROLE_ASSISTANT_MI : Str := "assistant".data

def IMAGE_TOKEN : Str := "<image>".data

/-- One sampled pretrain example, reduced to the two fields `_build_convo`
reads from it: `e["messages"][1]["content"]` (the caption) and
`e["images"][0]` (the image path). -/
structure PretrainPair where
  caption : Str
  path : Str

/-- An emitted multi-image conversation record. -/
structure MIRecord where
  images : List Str
  messages : List Message

/-- The `"<image>" * k` string of `_build_convo`. -/
def imageTokens (k : Nat) : Str := (List.replicate k IMAGE_TOKEN).flatten

/-- Embeds the record-assembly part of `_build_convo`: the external
chat-completion call is a collaborator whose structured reply is the pair
`(q, a)`; `coin` models `random.choice([True, False])`, which decides
whether the image tokens are prepended or appended to the question. -/
def build_convo (pairs : List PretrainPair) (q a : Str) (coin : Bool) : MIRecord :=
  let paths := pairs.map (fun e => e.path)
  let q2 := if coin then imageTokens pairs.length ++ " ".data ++ q
            else q ++ " ".data ++ imageTokens pairs.length
  { images := paths,
    messages := [⟨ROLE_USER_MI, q2⟩, ⟨ROLE_ASSISTANT_MI, a⟩] }

/-! ## Prefix and infix decomposition lemmas -/

theorem prefix_append_split {p a b : Str} :
    p <+: a ++ b ↔ p <+: a ∨ (a <+: p ∧ p.drop a.length <+: b) := by
  induction a generalizing p with
  | nil =>
    simp only [List.nil_append, List.length_nil, List.drop_zero]
    constructor
    · exact fun h => Or.inr ⟨List.nil_prefix, h⟩
    · rintro (h | ⟨-, h⟩)
      · obtain rfl := List.prefix_nil.mp h
        exact List.nil_prefix
      · exact h
  | cons c a ih =>
    cases p with
    | nil => simp
    | cons d p' =>
      simp only [List.cons_append, List.cons_prefix_cons, ih, List.length_cons,
        List.drop_succ_cons]
      tauto

theorem infix_append_split {q a b : Str} (h : q <:+: a ++ b) :
    q <:+: a ∨ q <:+: b ∨
      ∃ i, 0 < i ∧ i < q.length ∧ q.take i <:+ a ∧ q.drop i <+: b := by
  induction a with
  | nil => exact Or.inr (Or.inl (by simpa using h))
  | cons c a ih =>
    rw [List.cons_append, List.infix_cons_iff] at h
    rcases h with h | h
    · rcases prefix_append_split.mp (show q <+: (c :: a) ++ b by simpa using h)
        with h1 | ⟨h1, h2⟩
      · exact Or.inl h1.isInfix
      · by_cases hlen : q.length ≤ (c :: a).length
        · have heq : c :: a = q := h1.eq_of_length (le_antisymm h1.length_le hlen)
          exact Or.inl (heq ▸ List.infix_refl q)
        · refine Or.inr (Or.inr ⟨(c :: a).length, by simp, by omega, ?_, h2⟩)
          have : c :: a = q.take (c :: a).length := List.prefix_iff_eq_take.mp h1
          rw [← this]
    · rcases ih h with h1 | h1 | ⟨i, h0, hi, hsuf, hpre⟩
      · exact Or.inl (List.infix_cons h1)
      · exact Or.inr (Or.inl h1)
      · exact Or.inr (Or.inr ⟨i, h0, hi, hsuf.trans (List.suffix_cons c a), hpre⟩)

theorem not_infix_append {q a b : Str} (ha : ¬ q <:+: a) (hb : ¬ q <:+: b)
    (hsplit : ∀ i, 0 < i → i < q.length → ¬ (q.take i <:+ a ∧ q.drop i <+: b)) :
    ¬ q <:+: a ++ b := by
  intro h
  rcases infix_append_split h with h | h | ⟨i, h0, hi, h1, h2⟩
  · exact ha h
  · exact hb h
  · exact hsplit i h0 hi ⟨h1, h2⟩

/-! ## Structure lemmas for `pyReplace` -/

theorem replaceFuel_nilList (pat v : Str) : ∀ fuel, replaceFuel pat v fuel [] = [] := by
  intro fuel
  cases fuel <;> rfl

theorem replaceFuel_congr {pat v : Str} :
    ∀ (f1 : Nat) {f2 : Nat} {s : Str}, s.length ≤ f1 → s.length ≤ f2 →
      replaceFuel pat v f1 s = replaceFuel pat v f2 s := by
  intro f1
  induction f1 with
  | zero =>
    intro f2 s h1 _
    obtain rfl : s = [] := List.length_eq_zero.mp (Nat.le_zero.mp h1)
    rw [replaceFuel_nilList, replaceFuel_nilList]
  | succ f ih =>
    intro f2 s h1 h2
    cases s with
    | nil => rw [replaceFuel_nilList, replaceFuel_nilList]
    | cons c cs =>
      cases f2 with
      | zero => simp at h2
      | succ f2' =>
        simp only [replaceFuel]
        by_cases hcond : pat ≠ [] ∧ pat <+: (c :: cs)
        · rw [if_pos hcond, if_pos hcond]
          congr 1
          have hp := List.length_pos.mpr hcond.1
          simp only [List.length_cons] at h1 h2
          apply ih <;> (simp only [List.length_drop, List.length_cons]; omega)
        · rw [if_neg hcond, if_neg hcond]
          congr 1
          simp only [List.length_cons] at h1 h2
          apply ih <;> omega

theorem pyReplace_nil (pat v : Str) : pyReplace pat v [] = [] := rfl

theorem pyReplace_cons_pos {pat : Str} (v : Str) {c : Char} {cs : Str}
    (h1 : pat ≠ []) (h2 : pat <+: c :: cs) :
    pyReplace pat v (c :: cs) = v ++ pyReplace pat v ((c :: cs).drop pat.length) := by
  show replaceFuel pat v (c :: cs).length (c :: cs) = _
  simp only [List.length_cons, replaceFuel]
  rw [if_pos ⟨h1, h2⟩]
  congr 1
  have hp := List.length_pos.mpr h1
  apply replaceFuel_congr
  · simp only [List.length_drop, List.length_cons]
    omega
  · exact Nat.le_refl _

theorem pyReplace_cons_neg {pat : Str} (v : Str) {c : Char} {cs : Str}
    (h : ¬ (pat ≠ [] ∧ pat <+: c :: cs)) :
    pyReplace pat v (c :: cs) = c :: pyReplace pat v cs := by
  show replaceFuel pat v (c :: cs).length (c :: cs) = _
  simp only [List.length_cons, replaceFuel]
  rw [if_neg h]
  rfl

theorem pyReplace_id_of_no_occurrence {pat v : Str} :
    ∀ {s : Str}, ¬ pat <:+: s → pyReplace pat v s = s := by
  intro s
  induction s with
  | nil => intro _; exact pyReplace_nil pat v
  | cons c cs ih =>
    intro h
    have hp : ¬ pat <+: c :: cs := fun hp => h hp.isInfix
    rw [pyReplace_cons_neg v (fun hc => hp hc.2)]
    rw [ih (fun hi => h (List.infix_cons hi))]

theorem pyReplace_around (pat v : Str) (hne : pat ≠ []) :
    ∀ (a b : Str), (∀ i, i < a.length → ¬ pat <+: (a ++ pat).drop i) →
      pyReplace pat v (a ++ pat ++ b) = a ++ v ++ pyReplace pat v b := by
  intro a
  induction a with
  | nil =>
    intro b _
    cases pat with
    | nil => exact absurd rfl hne
    | cons p ps =>
      simp only [List.nil_append]
      rw [List.cons_append, pyReplace_cons_pos v hne (by
        rw [← List.cons_append]; exact List.prefix_append (p :: ps) b)]
      rw [← List.cons_append, List.drop_left]
  | cons c a ih =>
    intro b hocc
    have h0 : ¬ pat <+: c :: (a ++ pat ++ b) := by
      intro hp
      have hp' : pat <+: ((c :: a) ++ pat) ++ b := by
        simpa [List.append_assoc] using hp
      rcases prefix_append_split.mp hp' with h1 | ⟨h1, _⟩
      · exact hocc 0 (by simp) (by simpa using h1)
      · have hle := h1.length_le
        have hpos := List.length_pos.mpr hne
        simp only [List.length_append, List.length_cons] at hle
        omega
    rw [show (c :: a) ++ pat ++ b = c :: (a ++ pat ++ b) by simp]
    rw [pyReplace_cons_neg v (fun hc => h0 hc.2)]
    rw [ih b (fun i hi => by
      have := hocc (i + 1) (by simpa using Nat.succ_lt_succ hi)
      simpa using this)]
    simp

/-! ## Lemmas for `splitFirst` -/

theorem splitFirst_eq {pat : Str} :
    ∀ {s pre suf : Str}, splitFirst pat s = some (pre, suf) →
      s = pre ++ pat ++ suf ∧ ∀ i, i < pre.length → ¬ pat <+: s.drop i := by
  intro s
  induction s with
  | nil => intro pre suf h; simp [splitFirst] at h
  | cons c cs ih =>
    intro pre suf h
    rw [splitFirst] at h
    by_cases hp : pat <+: c :: cs
    · rw [if_pos hp] at h
      obtain ⟨hpre, hsuf⟩ : ([] : Str) = pre ∧ (c :: cs).drop pat.length = suf := by
        have := Option.some.inj h
        exact ⟨congrArg Prod.fst this, congrArg Prod.snd this⟩
      subst hpre
      subst hsuf
      obtain ⟨t, ht⟩ := hp
      constructor
      · rw [← ht, List.drop_left, List.nil_append]
      · intro i hi
        simp at hi
    · rw [if_neg hp] at h
      cases hsf : splitFirst pat cs with
      | none => rw [hsf] at h; simp at h
      | some pr =>
        rw [hsf] at h
        simp only [Option.map, Option.some.injEq] at h
        obtain ⟨hpre, hsuf⟩ : c :: pr.1 = pre ∧ pr.2 = suf := by
          exact ⟨congrArg Prod.fst h, congrArg Prod.snd h⟩
        subst hpre
        subst hsuf
        obtain ⟨heq, hocc⟩ := @ih pr.1 pr.2 (by rw [hsf])
        constructor
        · simp [heq]
        · intro i hi
          cases i with
          | zero => simpa using hp
          | succ j =>
            simp only [List.length_cons] at hi
            have := hocc j (by omega)
            simpa using this

theorem pyReplace_splitFirst {pat v : Str} (hne : pat ≠ []) {s pre suf : Str}
    (hs : splitFirst pat s = some (pre, suf)) (hsuf : ¬ pat <:+: suf) :
    pyReplace pat v s = pre ++ v ++ suf := by
  obtain ⟨heq, hocc⟩ := splitFirst_eq hs
  rw [heq]
  rw [pyReplace_around pat v hne pre suf ?_]
  · rw [pyReplace_id_of_no_occurrence hsuf]
  · intro i hi hp
    apply hocc i hi
    rw [heq]
    have hle : i ≤ (pre ++ pat).length := by
      simp only [List.length_append]
      omega
    rw [show pre ++ pat ++ suf = (pre ++ pat) ++ suf by simp,
      List.drop_append_of_le_length hle]
    exact hp.trans (List.prefix_append _ _)

/-! ## Safety of the template catalogs

`SafeParts p1 p2 pre suf` says that neither pattern occurs in the parts
`pre`/`suf` surrounding a template's substitution slot, and that no
proper split of either pattern can straddle the boundary between a part
and the substituted value.  It is a decidable condition checked on each
concrete template of the catalogs. -/

def SafeParts (p1 p2 pre suf : Str) : Prop :=
  (¬ p1 <:+: pre) ∧ (¬ p1 <:+: suf) ∧ (¬ p2 <:+: pre) ∧ (¬ p2 <:+: suf) ∧
  (∀ i, i < p1.length → 0 < i → ¬ p1.take i <:+ pre) ∧
  (∀ i, i < p1.length → 0 < i → ¬ p1.drop i <+: suf) ∧
  (∀ i, i < p2.length → 0 < i → ¬ p2.take i <:+ pre) ∧
  (∀ i, i < p2.length → 0 < i → ¬ p2.drop i <+: suf)

instance (p1 p2 pre suf : Str) : Decidable (SafeParts p1 p2 pre suf) := by
  unfold SafeParts
  infer_instance

/-- The first pattern occurs in `s`, and the parts around its first
occurrence are safe for both patterns. -/
def templateSafe (p1 p2 s : Str) : Prop :=
  match splitFirst p1 s with
  | none => False
  | some (pre, suf) => SafeParts p1 p2 pre suf

instance (p1 p2 s : Str) : Decidable (templateSafe p1 p2 s) := by
  unfold templateSafe
  rcases splitFirst p1 s with - | ⟨pre, suf⟩
  · exact isFalse fun h => h
  · exact inferInstanceAs (Decidable (SafeParts p1 p2 pre suf))

/-- Substituting a value free of both patterns between safe parts yields a
string free of both patterns. -/
theorem safeParts_protect {p1 p2 pre suf v : Str}
    (hs : SafeParts p1 p2 pre suf)
    (h1 : ¬ p1 <:+: v) (h2 : ¬ p2 <:+: v) :
    ¬ p1 <:+: pre ++ v ++ suf ∧ ¬ p2 <:+: pre ++ v ++ suf := by
  obtain ⟨a1, a2, a3, a4, b1, b2, b3, b4⟩ := hs
  rw [List.append_assoc]
  constructor
  · refine not_infix_append a1 (not_infix_append h1 a2 ?_) ?_
    · intro i h0 hi hc
      exact b2 i hi h0 hc.2
    · intro i h0 hi hc
      exact b1 i hi h0 hc.1
  · refine not_infix_append a3 (not_infix_append h2 a4 ?_) ?_
    · intro i h0 hi hc
      exact b4 i hi h0 hc.2
    · intro i h0 hi hc
      exact b3 i hi h0 hc.1

/-- From `templateSafe` obtain the decomposition of the template and the
rendering equation for any substituted value. -/
theorem templateSafe_elim {p1 p2 s : Str} (hne : p1 ≠ [])
    (h : templateSafe p1 p2 s) :
    ∃ pre suf, splitFirst p1 s = some (pre, suf) ∧ SafeParts p1 p2 pre suf ∧
      ∀ v : Str, pyReplace p1 v s = pre ++ v ++ suf := by
  unfold templateSafe at h
  rcases hsf : splitFirst p1 s with - | ⟨pre, suf⟩
  · rw [hsf] at h
    exact absurd h id
  · rw [hsf] at h
    exact ⟨pre, suf, rfl, h, fun v => pyReplace_splitFirst hne hsf h.2.1⟩

/-! ## Inversion lemmas for the pipeline functions -/

theorem process_input_eq_some {canon enc : Str → Option Str}
    {input format : Str} {token : Bool} {x : Str × Str × Str}
    (h : process_input canon enc input format token = some x) :
    canon input = some x.2.1 ∧ enc x.2.1 = some x.1 ∧
      (x.2.2 = MOLECULE_TOKEN ∨ x.2.2 = x.2.1 ∨ x.2.2 = x.1) := by
  unfold process_input at h
  cases hc : canon input with
  | none => rw [hc] at h; simp at h
  | some smiles =>
    rw [hc] at h
    simp only [Option.bind_eq_bind, Option.some_bind] at h
    cases he : enc smiles with
    | none => rw [he] at h; simp at h
    | some selfies =>
      rw [he] at h
      simp only [Option.some_bind] at h
      cases token with
      | true =>
        simp only [if_true] at h
        obtain rfl : (selfies, smiles, MOLECULE_TOKEN) = x := by
          simpa using h
        exact ⟨rfl, he, Or.inl rfl⟩
      | false =>
        by_cases h1 : format = "smiles".data
        · simp only [if_false, h1, if_true] at h
          obtain rfl : (selfies, smiles, smiles) = x := by
            simpa using h
          exact ⟨rfl, he, Or.inr (Or.inl rfl)⟩
        · by_cases h2 : format = "selfies".data
          · simp only [if_false, h1, h2, if_true] at h
            obtain rfl : (selfies, smiles, selfies) = x := by
              simpa using h
            exact ⟨rfl, he, Or.inr (Or.inr rfl)⟩
          · simp [h1, h2] at h

theorem process_input_some_of (canon enc : Str → Option Str)
    {input : Str} (format : Str) (token : Bool) {smiles selfies : Str}
    (hc : canon input = some smiles) (he : enc smiles = some selfies) :
    process_input canon enc input format token =
      if token then some (selfies, smiles, MOLECULE_TOKEN)
      else if format = "smiles".data then some (selfies, smiles, smiles)
      else if format = "selfies".data then some (selfies, smiles, selfies)
      else none := by
  unfold process_input
  rw [hc]
  simp only [Option.bind_eq_bind, Option.some_bind, he]
  cases token with
  | true => simp
  | false =>
    by_cases h1 : format = "smiles".data
    · simp [h1]
    · by_cases h2 : format = "selfies".data
      · simp [h1, h2]
      · simp [h1, h2]

theorem conversation_train_s2f_inv {canon enc : Str → Option Str}
    {tidx : Fin PROMPT_TEMPLATES_S2F.length} {id : Nat}
    {input output format : Str} {token : Bool} {rec : ConvRecord}
    (h : conversation_train_s2f canon enc tidx id input output format token = some rec) :
    ∃ selfies smiles molecule,
      process_input canon enc input format token = some (selfies, smiles, molecule) ∧
      rec = { id := id,
              molecules := ⟨MolVal.str selfies, MolVal.str smiles⟩,
              ground_truth := output,
              messages := [⟨ROLE_SYSTEM, SYSTEM_PROMPT⟩,
                ⟨ROLE_USER, pyReplace INPUT_PH molecule (PROMPT_TEMPLATES_S2F.get tidx).input⟩,
                ⟨ROLE_ASSISTANT, pyReplace OUTPUT_PH output (PROMPT_TEMPLATES_S2F.get tidx).output⟩] } := by
  unfold conversation_train_s2f at h
  cases hp : process_input canon enc input format token with
  | none => rw [hp] at h; simp at h
  | some x =>
    rw [hp] at h
    simp only [Option.bind_eq_bind, Option.some_bind, Option.pure_def,
      Option.some.injEq] at h
    exact ⟨x.1, x.2.1, x.2.2, rfl, h.symm⟩

theorem conversation_test_s2f_inv {canon enc : Str → Option Str}
    {tidx : Fin PROMPT_TEMPLATES_S2F.length} {id : Nat}
    {input output format : Str} {token : Bool} {rec : ConvRecord}
    (h : conversation_test_s2f canon enc tidx id input output none format token = some rec) :
    ∃ selfies smiles molecule,
      process_input canon enc input format token = some (selfies, smiles, molecule) ∧
      rec = { id := id,
              molecules := ⟨MolVal.str selfies, MolVal.str smiles⟩,
              ground_truth := output,
              messages := [⟨ROLE_SYSTEM, SYSTEM_PROMPT⟩,
                ⟨ROLE_USER, pyReplace INPUT_PH molecule (PROMPT_TEMPLATES_S2F.get tidx).input⟩] } := by
  unfold conversation_test_s2f at h
  cases hp : process_input canon enc input format token with
  | none => rw [hp] at h; simp at h
  | some x =>
    rw [hp] at h
    simp only [Option.bind_eq_bind, Option.some_bind, Option.pure_def,
      Option.some.injEq] at h
    exact ⟨x.1, x.2.1, x.2.2, rfl, h.symm⟩

theorem conversation_train_i2s_eq (tidx : Fin PROMPT_TEMPLATES_I2S.length)
    (id : Nat) (input output format : Str) (token : Bool) :
    conversation_train_i2s tidx id input output format token =
      { id := id,
        molecules := ⟨MolVal.emptyList, MolVal.emptyList⟩,
        ground_truth := output,
        messages := [⟨ROLE_SYSTEM, SYSTEM_PROMPT⟩,
          ⟨ROLE_USER, pyReplace INPUT_PH input (PROMPT_TEMPLATES_I2S.get tidx).input⟩,
          ⟨ROLE_ASSISTANT, pyReplace OUTPUT_PH output (PROMPT_TEMPLATES_I2S.get tidx).output⟩] } := rfl

theorem conversation_test_i2s_none_eq (tidx : Fin PROMPT_TEMPLATES_I2S.length)
    (id : Nat) (input output format : Str) (token : Bool) :
    conversation_test_i2s tidx id input output none format token =
      { id := id,
        molecules := ⟨MolVal.emptyList, MolVal.emptyList⟩,
        ground_truth := output,
        messages := [⟨ROLE_SYSTEM, SYSTEM_PROMPT⟩,
          ⟨ROLE_USER, pyReplace INPUT_PH input (PROMPT_TEMPLATES_I2S.get tidx).input⟩] } := rfl

/-! ## Lemmas about the generator -/

theorem mem_genAux {assemble : Nat → RawRecord → Option ConvRecord} :
    ∀ {start : Nat} {rows : List RawRecord} {rec : ConvRecord},
      rec ∈ genAux assemble start rows →
      ∃ i, ∃ h : i < rows.length, assemble (start + i) (rows.get ⟨i, h⟩) = some rec := by
  intro start rows
  induction rows generalizing start with
  | nil => intro rec h; simp [genAux] at h
  | cons r rs ih =>
    intro rec h
    rw [genAux] at h
    cases ha : assemble start r with
    | some rec' =>
      rw [ha] at h
      rcases List.mem_cons.mp h with h1 | h1
      · exact ⟨0, by simp, by simpa [ha] using h1.symm⟩
      · obtain ⟨i, hi, hmem⟩ := ih h1
        exact ⟨i + 1, by simpa using Nat.succ_lt_succ hi, by
          simpa [Nat.add_comm, Nat.add_assoc, Nat.add_left_comm] using hmem⟩
    | none =>
      rw [ha] at h
      obtain ⟨i, hi, hmem⟩ := ih h
      exact ⟨i + 1, by simpa using Nat.succ_lt_succ hi, by
        simpa [Nat.add_comm, Nat.add_assoc, Nat.add_left_comm] using hmem⟩

theorem genAux_mem {assemble : Nat → RawRecord → Option ConvRecord} :
    ∀ {start : Nat} {rows : List RawRecord} (i : Nat) (h : i < rows.length) {rec : ConvRecord},
      assemble (start + i) (rows.get ⟨i, h⟩) = some rec →
      rec ∈ genAux assemble start rows := by
  intro start rows
  induction rows generalizing start with
  | nil => intro i h rec _; simp at h
  | cons r rs ih =>
    intro i h rec hmem
    rw [genAux]
    cases i with
    | zero =>
      simp only [List.get] at hmem
      rw [Nat.add_zero] at hmem
      rw [hmem]
      exact List.mem_cons_self _ _
    | succ j =>
      have hj : j < rs.length := by simpa using Nat.lt_of_succ_lt_succ h
      have : assemble (start + 1 + j) (rs.get ⟨j, hj⟩) = some rec := by
        simpa [Nat.add_comm, Nat.add_assoc, Nat.add_left_comm] using hmem
      have hmem' := ih j hj this
      cases ha : assemble start r with
      | some rec' => exact List.mem_cons_of_mem _ hmem'
      | none => exact hmem'

theorem genAux_length_le {assemble : Nat → RawRecord → Option ConvRecord} :
    ∀ (start : Nat) (rows : List RawRecord),
      (genAux assemble start rows).length ≤ rows.length := by
  intro start rows
  induction rows generalizing start with
  | nil => simp [genAux]
  | cons r rs ih =>
    rw [genAux]
    cases assemble start r with
    | some rec => simpa using ih (start + 1)
    | none => exact Nat.le_succ_of_le (ih (start + 1))

theorem genAux_length_lt {assemble : Nat → RawRecord → Option ConvRecord} :
    ∀ (start : Nat) (rows : List RawRecord) (i : Nat) (h : i < rows.length),
      assemble (start + i) (rows.get ⟨i, h⟩) = none →
      (genAux assemble start rows).length < rows.length := by
  intro start rows
  induction rows generalizing start with
  | nil => intro i h _; simp at h
  | cons r rs ih =>
    intro i h hnone
    rw [genAux]
    cases i with
    | zero =>
      simp only [List.get] at hnone
      rw [Nat.add_zero] at hnone
      rw [hnone]
      simpa using Nat.lt_succ_of_le (genAux_length_le (start + 1) rs)
    | succ j =>
      have hj : j < rs.length := by simpa using Nat.lt_of_succ_lt_succ h
      have hnone' : assemble (start + 1 + j) (rs.get ⟨j, hj⟩) = none := by
        simpa [Nat.add_comm, Nat.add_assoc, Nat.add_left_comm] using hnone
      cases assemble start r with
      | some rec => simpa using Nat.succ_lt_succ (ih (start + 1) j hj hnone')
      | none => exact Nat.lt_succ_of_lt (ih (start + 1) j hj hnone')

/-! ## Safety facts about the concrete catalogs and constants -/

set_option maxRecDepth 10000 in
set_option maxHeartbeats 2000000 in
theorem templates_safe_s2f :
    ∀ t ∈ PROMPT_TEMPLATES_S2F,
      templateSafe INPUT_PH OUTPUT_PH t.input ∧
      templateSafe OUTPUT_PH INPUT_PH t.output := by
  decide

set_option maxRecDepth 10000 in
set_option maxHeartbeats 2000000 in
theorem templates_safe_i2s :
    ∀ t ∈ PROMPT_TEMPLATES_I2S,
      templateSafe INPUT_PH OUTPUT_PH t.input ∧
      templateSafe OUTPUT_PH INPUT_PH t.output := by
  decide

set_option maxRecDepth 4000 in
theorem system_prompt_clean :
    ¬ INPUT_PH <:+: SYSTEM_PROMPT ∧ ¬ OUTPUT_PH <:+: SYSTEM_PROMPT := by
  decide

theorem molecule_token_clean :
    ¬ INPUT_PH <:+: MOLECULE_TOKEN ∧ ¬ OUTPUT_PH <:+: MOLECULE_TOKEN := by
  decide

/-- Rendering the input template of any s2f catalog entry with a value
free of both placeholders produces a string free of both placeholders. -/
theorem rendered_input_clean_s2f (tidx : Fin PROMPT_TEMPLATES_S2F.length) {v : Str}
    (h1 : ¬ INPUT_PH <:+: v) (h2 : ¬ OUTPUT_PH <:+: v) :
    ¬ INPUT_PH <:+: pyReplace INPUT_PH v (PROMPT_TEMPLATES_S2F.get tidx).input ∧
    ¬ OUTPUT_PH <:+: pyReplace INPUT_PH v (PROMPT_TEMPLATES_S2F.get tidx).input := by
  have hts := (templates_safe_s2f _ (List.get_mem PROMPT_TEMPLATES_S2F tidx.1 tidx.2)).1
  obtain ⟨pre, suf, hsf, hsafe, hrw⟩ := templateSafe_elim (by decide) hts
  rw [hrw v]
  exact safeParts_protect hsafe h1 h2

theorem rendered_output_clean_s2f (tidx : Fin PROMPT_TEMPLATES_S2F.length) {v : Str}
    (h1 : ¬ INPUT_PH <:+: v) (h2 : ¬ OUTPUT_PH <:+: v) :
    ¬ INPUT_PH <:+: pyReplace OUTPUT_PH v (PROMPT_TEMPLATES_S2F.get tidx).output ∧
    ¬ OUTPUT_PH <:+: pyReplace OUTPUT_PH v (PROMPT_TEMPLATES_S2F.get tidx).output := by
  have hts := (templates_safe_s2f _ (List.get_mem PROMPT_TEMPLATES_S2F tidx.1 tidx.2)).2
  obtain ⟨pre, suf, hsf, hsafe, hrw⟩ := templateSafe_elim (by decide) hts
  rw [hrw v]
  exact (safeParts_protect hsafe h2 h1).symm

theorem rendered_input_clean_i2s (tidx : Fin PROMPT_TEMPLATES_I2S.length) {v : Str}
    (h1 : ¬ INPUT_PH <:+: v) (h2 : ¬ OUTPUT_PH <:+: v) :
    ¬ INPUT_PH <:+: pyReplace INPUT_PH v (PROMPT_TEMPLATES_I2S.get tidx).input ∧
    ¬ OUTPUT_PH <:+: pyReplace INPUT_PH v (PROMPT_TEMPLATES_I2S.get tidx).input := by
  have hts := (templates_safe_i2s _ (List.get_mem PROMPT_TEMPLATES_I2S tidx.1 tidx.2)).1
  obtain ⟨pre, suf, hsf, hsafe, hrw⟩ := templateSafe_elim (by decide) hts
  rw [hrw v]
  exact safeParts_protect hsafe h1 h2

theorem rendered_output_clean_i2s (tidx : Fin PROMPT_TEMPLATES_I2S.length) {v : Str}
    (h1 : ¬ INPUT_PH <:+: v) (h2 : ¬ OUTPUT_PH <:+: v) :
    ¬ INPUT_PH <:+: pyReplace OUTPUT_PH v (PROMPT_TEMPLATES_I2S.get tidx).output ∧
    ¬ OUTPUT_PH <:+: pyReplace OUTPUT_PH v (PROMPT_TEMPLATES_I2S.get tidx).output := by
  have hts := (templates_safe_i2s _ (List.get_mem PROMPT_TEMPLATES_I2S tidx.1 tidx.2)).2
  obtain ⟨pre, suf, hsf, hsafe, hrw⟩ := templateSafe_elim (by decide) hts
  rw [hrw v]
  exact (safeParts_protect hsafe h2 h1).symm

/-! ## Claim theorems -/

/-- C10: the `--token` CLI option of both molecule pipelines is parsed
with a plain `bool` conversion, so the default is `true`, every non-empty
supplied string (including "False" and "0") yields `true`, and only the
empty string yields `false`. -/
theorem C10_token_flag_bool_conversion :
    parse_token_flag none = true ∧
    (∀ s : Str, parse_token_flag (some s) = decide (s ≠ [])) ∧
    parse_token_flag (some "False".data) = true ∧
    parse_token_flag (some "0".data) = true ∧
    parse_token_flag (some "".data) = false :=
  ⟨rfl, fun _ => rfl, by decide, by decide, by decide⟩

/-- C7: for every input whose canonicalization and SELFIES encoding
succeed, `process_input` raises exactly when the token flag is off and the
format is neither "smiles" nor "selfies"; with the token flag it returns
the opaque token as the molecule, otherwise the canonical SMILES for
format "smiles" and the SELFIES string for format "selfies". -/
theorem C7_process_input_mode_selection (canon enc : Str → Option Str)
    (input format : Str) (token : Bool) (smiles selfies : Str)
    (hc : canon input = some smiles) (he : enc smiles = some selfies) :
    (process_input canon enc input format token = none ↔
      token = false ∧ format ≠ "smiles".data ∧ format ≠ "selfies".data) ∧
    (token = true →
      process_input canon enc input format token = some (selfies, smiles, MOLECULE_TOKEN)) ∧
    (token = false → format = "smiles".data →
      process_input canon enc input format token = some (selfies, smiles, smiles)) ∧
    (token = false → format = "selfies".data →
      process_input canon enc input format token = some (selfies, smiles, selfies)) := by
  rw [process_input_some_of canon enc format token hc he]
  cases token with
  | true => simp
  | false =>
    by_cases h1 : format = "smiles".data
    · simp [h1]
    · by_cases h2 : format = "selfies".data
      · simp [h1, h2]
      · simp [h1, h2]

theorem C7_witness :
    process_input (fun s => some s) (fun _ => some "[C][C][O]".data)
      "CCO".data "smiles".data true =
      some ("[C][C][O]".data, "CCO".data, MOLECULE_TOKEN) :=
  (C7_process_input_mode_selection (fun s => some s) (fun _ => some "[C][C][O]".data)
    "CCO".data "smiles".data true "CCO".data "[C][C][O]".data rfl rfl).2.1 rfl

/-- C4: a train or dev record of either pipeline has exactly the three
turns system, user, assistant in that order; a test record has exactly the
two turns system, user; and in every case the record's `ground_truth`
equals the raw record's `output`. -/
theorem C4_message_shapes :
    (∀ (canon enc : Str → Option Str) (tidx : Fin PROMPT_TEMPLATES_S2F.length)
        (id : Nat) (input output format : Str) (token : Bool) (rec : ConvRecord),
        conversation_train_s2f canon enc tidx id input output format token = some rec →
        rec.messages.map Message.role = [ROLE_SYSTEM, ROLE_USER, ROLE_ASSISTANT] ∧
        rec.ground_truth = output) ∧
    (∀ (canon enc : Str → Option Str) (tidx : Fin PROMPT_TEMPLATES_S2F.length)
        (id : Nat) (input output : Str) (few_shots : Option (List RawRecord))
        (format : Str) (token : Bool) (rec : ConvRecord),
        conversation_test_s2f canon enc tidx id input output few_shots format token = some rec →
        rec.messages.map Message.role = [ROLE_SYSTEM, ROLE_USER] ∧
        rec.ground_truth = output) ∧
    (∀ (tidx : Fin PROMPT_TEMPLATES_I2S.length) (id : Nat)
        (input output format : Str) (token : Bool),
        (conversation_train_i2s tidx id input output format token).messages.map Message.role =
          [ROLE_SYSTEM, ROLE_USER, ROLE_ASSISTANT] ∧
        (conversation_train_i2s tidx id input output format token).ground_truth = output) ∧
    (∀ (tidx : Fin PROMPT_TEMPLATES_I2S.length) (id : Nat) (input output : Str)
        (few_shots : Option (List RawRecord)) (format : Str) (token : Bool),
        (conversation_test_i2s tidx id input output few_shots format token).messages.map
          Message.role = [ROLE_SYSTEM, ROLE_USER] ∧
        (conversation_test_i2s tidx id input output few_shots format token).ground_truth =
          output) := by
  refine ⟨?_, ?_, ?_, ?_⟩
  · intro canon enc tidx id input output format token rec h
    obtain ⟨selfies, smiles, molecule, hp, rfl⟩ := conversation_train_s2f_inv h
    exact ⟨rfl, rfl⟩
  · intro canon enc tidx id input output few_shots format token rec h
    unfold conversation_test_s2f at h
    cases hp : process_input canon enc input format token with
    | none => rw [hp] at h; simp at h
    | some x =>
      rw [hp] at h
      simp only [Option.bind_eq_bind, Option.some_bind, Option.pure_def,
        Option.some.injEq] at h
      subst h
      exact ⟨rfl, rfl⟩
  · intro tidx id input output format token
    exact ⟨rfl, rfl⟩
  · intro tidx id input output few_shots format token
    exact ⟨rfl, rfl⟩

theorem C4_witness :
    (conversation_train_i2s ⟨0, by decide⟩ 0 "CCO".data "C2H6O".data "smiles".data
        true).messages.map Message.role = [ROLE_SYSTEM, ROLE_USER, ROLE_ASSISTANT] ∧
    (conversation_train_i2s ⟨0, by decide⟩ 0 "CCO".data "C2H6O".data "smiles".data
        true).ground_truth = "C2H6O".data :=
  C4_message_shapes.2.2.1 ⟨0, by decide⟩ 0 "CCO".data "C2H6O".data "smiles".data true

/-- C3: for the raw record `{"input": "CCO", "output": "C2H6O"}` processed
by the s2f pipeline in format "smiles" with token mode on (given that
"CCO" is already canonical), the emitted record's user message is the
chosen catalog template's input with `<INPUT>` replaced by the opaque
token, the assistant message is the template's output with `<OUTPUT>`
replaced by "C2H6O", `molecules.smiles` is "CCO", and `molecules.selfies`
is the SELFIES encoding of "CCO". -/
theorem C3_cco_scenario (canon enc : Str → Option Str)
    (tidx : Fin PROMPT_TEMPLATES_S2F.length) (selfies : Str)
    (hc : canon "CCO".data = some "CCO".data)
    (he : enc "CCO".data = some selfies) :
    conversation_train_s2f canon enc tidx 0 "CCO".data "C2H6O".data "smiles".data true =
      some { id := 0,
             molecules := ⟨MolVal.str selfies, MolVal.str "CCO".data⟩,
             ground_truth := "C2H6O".data,
             messages := [⟨ROLE_SYSTEM, SYSTEM_PROMPT⟩,
               ⟨ROLE_USER,
                 pyReplace INPUT_PH MOLECULE_TOKEN (PROMPT_TEMPLATES_S2F.get tidx).input⟩,
               ⟨ROLE_ASSISTANT,
                 pyReplace OUTPUT_PH "C2H6O".data (PROMPT_TEMPLATES_S2F.get tidx).output⟩] } := by
  unfold conversation_train_s2f
  rw [process_input_some_of canon enc "smiles".data true hc he]
  simp

theorem C3_witness :
    conversation_train_s2f (fun s => some s) (fun _ => some "[C][C][O]".data) ⟨0, by decide⟩ 0
        "CCO".data "C2H6O".data "smiles".data true =
      some { id := 0,
             molecules := ⟨MolVal.str "[C][C][O]".data, MolVal.str "CCO".data⟩,
             ground_truth := "C2H6O".data,
             messages := [⟨ROLE_SYSTEM, SYSTEM_PROMPT⟩,
               ⟨ROLE_USER,
                 pyReplace INPUT_PH MOLECULE_TOKEN
                   (PROMPT_TEMPLATES_S2F.get ⟨0, by decide⟩).input⟩,
               ⟨ROLE_ASSISTANT,
                 pyReplace OUTPUT_PH "C2H6O".data
                   (PROMPT_TEMPLATES_S2F.get ⟨0, by decide⟩).output⟩] } :=
  C3_cco_scenario (fun s => some s) (fun _ => some "[C][C][O]".data) ⟨0, by decide⟩
    "[C][C][O]".data rfl rfl

set_option maxRecDepth 40000 in
/-- C1 counterexample: in the i2s pipeline with the token flag set, the
rendered user prompt does not contain the opaque molecule token at all
(no message does), and it does contain the raw input text: the i2s
`conversation_train` substitutes the raw `input` into the template and
ignores the token flag. -/
theorem C1_counterexample :
    ((conversation_train_i2s ⟨0, by decide⟩ 0 "CCO".data "C2H6O".data "smiles".data
        true).messages.map (fun m => decide (MOLECULE_TOKEN <:+: m.content)) =
      [false, false, false]) ∧
    ((conversation_train_i2s ⟨0, by decide⟩ 0 "CCO".data "C2H6O".data "smiles".data
        true).messages.map (fun m => decide ("CCO".data <:+: m.content)) =
      [false, true, false]) := by
  exact ⟨by decide, by decide⟩

/-- C1 amended: only the s2f pipeline implements token mode.  In the s2f
pipeline with the token flag set, the rendered user prompt is the chosen
template with the opaque token substituted into the `<INPUT>` slot (so the
token occurs in the prompt), and the raw SMILES/SELFIES text is not
substituted: whenever the canonical SMILES (resp. SELFIES) string differs
from the token, the prompt differs from the prompt that substituting it
would produce.  In the i2s pipeline the raw input is substituted into the
`<INPUT>` slot regardless of the token flag. -/
theorem C1_amended_token_substitution :
    (∀ (canon enc : Str → Option Str) (tidx : Fin PROMPT_TEMPLATES_S2F.length)
        (id : Nat) (input output format smiles selfies : Str),
        canon input = some smiles → enc smiles = some selfies →
        ∃ rec, conversation_train_s2f canon enc tidx id input output format true = some rec ∧
          rec.messages.map Message.content =
            [SYSTEM_PROMPT,
             pyReplace INPUT_PH MOLECULE_TOKEN (PROMPT_TEMPLATES_S2F.get tidx).input,
             pyReplace OUTPUT_PH output (PROMPT_TEMPLATES_S2F.get tidx).output] ∧
          MOLECULE_TOKEN <:+:
            pyReplace INPUT_PH MOLECULE_TOKEN (PROMPT_TEMPLATES_S2F.get tidx).input ∧
          (smiles ≠ MOLECULE_TOKEN →
            pyReplace INPUT_PH MOLECULE_TOKEN (PROMPT_TEMPLATES_S2F.get tidx).input ≠
              pyReplace INPUT_PH smiles (PROMPT_TEMPLATES_S2F.get tidx).input) ∧
          (selfies ≠ MOLECULE_TOKEN →
            pyReplace INPUT_PH MOLECULE_TOKEN (PROMPT_TEMPLATES_S2F.get tidx).input ≠
              pyReplace INPUT_PH selfies (PROMPT_TEMPLATES_S2F.get tidx).input)) ∧
    (∀ (tidx : Fin PROMPT_TEMPLATES_I2S.length) (id : Nat) (input output format : Str),
        (conversation_train_i2s tidx id input output format true).messages.map
          Message.content =
          [SYSTEM_PROMPT,
           pyReplace INPUT_PH input (PROMPT_TEMPLATES_I2S.get tidx).input,
           pyReplace OUTPUT_PH output (PROMPT_TEMPLATES_I2S.get tidx).output]) := by
  constructor
  · intro canon enc tidx id input output format smiles selfies hc he
    have hp := process_input_some_of canon enc format true hc he
    simp only [if_true] at hp
    refine ⟨{ id := id,
              molecules := ⟨MolVal.str selfies, MolVal.str smiles⟩,
              ground_truth := output,
              messages := [⟨ROLE_SYSTEM, SYSTEM_PROMPT⟩,
                ⟨ROLE_USER,
                  pyReplace INPUT_PH MOLECULE_TOKEN (PROMPT_TEMPLATES_S2F.get tidx).input⟩,
                ⟨ROLE_ASSISTANT,
                  pyReplace OUTPUT_PH output (PROMPT_TEMPLATES_S2F.get tidx).output⟩] },
        ?_, rfl, ?_, ?_, ?_⟩
    · unfold conversation_train_s2f
      rw [hp]
      rfl
    · have hts := (templates_safe_s2f _ (List.get_mem PROMPT_TEMPLATES_S2F tidx.1 tidx.2)).1
      obtain ⟨pre, suf, hsf, hsafe, hrw⟩ := templateSafe_elim (by decide) hts
      rw [hrw MOLECULE_TOKEN]
      exact ⟨pre, suf, rfl⟩
    · intro hne heq
      have hts := (templates_safe_s2f _ (List.get_mem PROMPT_TEMPLATES_S2F tidx.1 tidx.2)).1
      obtain ⟨pre, suf, hsf, hsafe, hrw⟩ := templateSafe_elim (by decide) hts
      rw [hrw MOLECULE_TOKEN, hrw smiles] at heq
      exact hne (List.append_cancel_left (List.append_cancel_right heq)).symm
    · intro hne heq
      have hts := (templates_safe_s2f _ (List.get_mem PROMPT_TEMPLATES_S2F tidx.1 tidx.2)).1
      obtain ⟨pre, suf, hsf, hsafe, hrw⟩ := templateSafe_elim (by decide) hts
      rw [hrw MOLECULE_TOKEN, hrw selfies] at heq
      exact hne (List.append_cancel_left (List.append_cancel_right heq)).symm
  · intro tidx id input output format
    rfl

theorem C1_amended_witness :
    MOLECULE_TOKEN <:+:
      pyReplace INPUT_PH MOLECULE_TOKEN
        ((PROMPT_TEMPLATES_S2F.get ⟨0, by decide⟩).input) := by
  obtain ⟨rec, -, -, htok, -, -⟩ := C1_amended_token_substitution.1 (fun s => some s)
    (fun _ => some "[C][C][O]".data) ⟨0, by decide⟩ 0 "CCO".data "C2H6O".data "smiles".data
    "CCO".data "[C][C][O]".data rfl rfl
  exact htok

/-- Every molecule value produced by a successful `process_input` is free
of both placeholders, provided the external canonicalizer and encoder only
produce placeholder-free strings. -/
theorem molecule_clean_of_process {canon enc : Str → Option Str}
    {input format : Str} {token : Bool} {x : Str × Str × Str}
    (hcanon : ∀ a b, canon a = some b → ¬ INPUT_PH <:+: b ∧ ¬ OUTPUT_PH <:+: b)
    (henc : ∀ a b, enc a = some b → ¬ INPUT_PH <:+: b ∧ ¬ OUTPUT_PH <:+: b)
    (h : process_input canon enc input format token = some x) :
    (¬ INPUT_PH <:+: x.2.2 ∧ ¬ OUTPUT_PH <:+: x.2.2) ∧
    (¬ INPUT_PH <:+: x.1 ∧ ¬ OUTPUT_PH <:+: x.1) ∧
    (¬ INPUT_PH <:+: x.2.1 ∧ ¬ OUTPUT_PH <:+: x.2.1) := by
  obtain ⟨hc, he, hm⟩ := process_input_eq_some h
  have hsm := hcanon _ _ hc
  have hsf := henc _ _ he
  refine ⟨?_, hsf, hsm⟩
  rcases hm with h' | h' | h' <;> rw [h']
  · exact molecule_token_clean
  · exact hsm
  · exact hsf

set_option maxRecDepth 40000 in
/-- C2 counterexample: a raw record whose `output` field is the literal
string `<OUTPUT>` is accepted by the i2s pipeline, and the emitted
assistant message still contains the substring `<OUTPUT>` after template
substitution. -/
theorem C2_counterexample :
    (conversation_train_i2s ⟨0, by decide⟩ 0 "x".data "<OUTPUT>".data "smiles".data
        true).messages.map (fun m => decide (OUTPUT_PH <:+: m.content)) =
      [false, false, true] := by
  decide

/-- C2 amended: for every raw record whose `input` and `output` fields
contain neither `<INPUT>` nor `<OUTPUT>` as a substring (and, for the s2f
pipeline, whenever the external canonicalizer and SELFIES encoder only
produce placeholder-free strings), every message content of every record
emitted by either pipeline's generator contains no literal `<INPUT>` and
no literal `<OUTPUT>`. -/
theorem C2_amended_no_placeholder_survives :
    (∀ (canon enc : Str → Option Str) (choose : Nat → Fin PROMPT_TEMPLATES_S2F.length)
        (shuffle : List RawRecord → List RawRecord) (split : Split)
        (format : Str) (token : Bool) (rows : List RawRecord),
        (∀ a b, canon a = some b → ¬ INPUT_PH <:+: b ∧ ¬ OUTPUT_PH <:+: b) →
        (∀ a b, enc a = some b → ¬ INPUT_PH <:+: b ∧ ¬ OUTPUT_PH <:+: b) →
        (∀ r ∈ rows, ¬ INPUT_PH <:+: r.output ∧ ¬ OUTPUT_PH <:+: r.output) →
        ∀ rec ∈ gen_s2f canon enc choose shuffle split format token rows,
          ∀ m ∈ rec.messages, ¬ INPUT_PH <:+: m.content ∧ ¬ OUTPUT_PH <:+: m.content) ∧
    (∀ (choose : Nat → Fin PROMPT_TEMPLATES_I2S.length)
        (shuffle : List RawRecord → List RawRecord) (split : Split)
        (format : Str) (token : Bool) (rows : List RawRecord),
        (∀ r ∈ rows, (¬ INPUT_PH <:+: r.input ∧ ¬ OUTPUT_PH <:+: r.input) ∧
          (¬ INPUT_PH <:+: r.output ∧ ¬ OUTPUT_PH <:+: r.output)) →
        ∀ rec ∈ gen_i2s choose shuffle split format token rows,
          ∀ m ∈ rec.messages, ¬ INPUT_PH <:+: m.content ∧ ¬ OUTPUT_PH <:+: m.content) := by
  constructor
  · intro canon enc choose shuffle split format token rows hcanon henc hrows rec hrec m hm
    obtain ⟨j, hj, hass⟩ := mem_genAux hrec
    rw [Nat.zero_add] at hass
    have hitem : rows.get ⟨j, hj⟩ ∈ rows := List.get_mem rows j hj
    cases split with
    | train =>
      have hass' : conversation_train_s2f canon enc (choose j) j (rows.get ⟨j, hj⟩).input
          (rows.get ⟨j, hj⟩).output format token = some rec := hass
      obtain ⟨selfies, smiles, molecule, hp, rfl⟩ := conversation_train_s2f_inv hass'
      have hmol := (molecule_clean_of_process hcanon henc hp).1
      simp only [List.mem_cons, List.not_mem_nil, or_false] at hm
      rcases hm with rfl | rfl | rfl
      · exact system_prompt_clean
      · exact rendered_input_clean_s2f (choose j) hmol.1 hmol.2
      · have hout := hrows _ hitem
        exact rendered_output_clean_s2f (choose j) hout.1 hout.2
    | dev =>
      have hass' : conversation_train_s2f canon enc (choose j) j (rows.get ⟨j, hj⟩).input
          (rows.get ⟨j, hj⟩).output format token = some rec := hass
      obtain ⟨selfies, smiles, molecule, hp, rfl⟩ := conversation_train_s2f_inv hass'
      have hmol := (molecule_clean_of_process hcanon henc hp).1
      simp only [List.mem_cons, List.not_mem_nil, or_false] at hm
      rcases hm with rfl | rfl | rfl
      · exact system_prompt_clean
      · exact rendered_input_clean_s2f (choose j) hmol.1 hmol.2
      · have hout := hrows _ hitem
        exact rendered_output_clean_s2f (choose j) hout.1 hout.2
    | test =>
      have hass' : conversation_test_s2f canon enc (choose j) j (rows.get ⟨j, hj⟩).input
          (rows.get ⟨j, hj⟩).output none format token = some rec := hass
      obtain ⟨selfies, smiles, molecule, hp, rfl⟩ := conversation_test_s2f_inv hass'
      have hmol := (molecule_clean_of_process hcanon henc hp).1
      simp only [List.mem_cons, List.not_mem_nil, or_false] at hm
      rcases hm with rfl | rfl
      · exact system_prompt_clean
      · exact rendered_input_clean_s2f (choose j) hmol.1 hmol.2
  · intro choose shuffle split format token rows hrows rec hrec m hm
    obtain ⟨j, hj, hass⟩ := mem_genAux hrec
    rw [Nat.zero_add] at hass
    have hitem := hrows _ (List.get_mem rows j hj)
    cases split with
    | train =>
      have hass' : some (conversation_train_i2s (choose j) j (rows.get ⟨j, hj⟩).input
          (rows.get ⟨j, hj⟩).output format token) = some rec := hass
      obtain rfl := Option.some.inj hass'
      rw [conversation_train_i2s_eq] at hm
      simp only [List.mem_cons, List.not_mem_nil, or_false] at hm
      rcases hm with rfl | rfl | rfl
      · exact system_prompt_clean
      · exact rendered_input_clean_i2s (choose j) hitem.1.1 hitem.1.2
      · exact rendered_output_clean_i2s (choose j) hitem.2.1 hitem.2.2
    | dev =>
      have hass' : some (conversation_train_i2s (choose j) j (rows.get ⟨j, hj⟩).input
          (rows.get ⟨j, hj⟩).output format token) = some rec := hass
      obtain rfl := Option.some.inj hass'
      rw [conversation_train_i2s_eq] at hm
      simp only [List.mem_cons, List.not_mem_nil, or_false] at hm
      rcases hm with rfl | rfl | rfl
      · exact system_prompt_clean
      · exact rendered_input_clean_i2s (choose j) hitem.1.1 hitem.1.2
      · exact rendered_output_clean_i2s (choose j) hitem.2.1 hitem.2.2
    | test =>
      have hass' : some (conversation_test_i2s (choose j) j (rows.get ⟨j, hj⟩).input
          (rows.get ⟨j, hj⟩).output none format token) = some rec := hass
      obtain rfl := Option.some.inj hass'
      rw [conversation_test_i2s_none_eq] at hm
      simp only [List.mem_cons, List.not_mem_nil, or_false] at hm
      rcases hm with rfl | rfl
      · exact system_prompt_clean
      · exact rendered_input_clean_i2s (choose j) hitem.1.1 hitem.1.2

set_option maxRecDepth 40000 in
theorem C2_amended_witness :
    ¬ INPUT_PH <:+: SYSTEM_PROMPT ∧ ¬ OUTPUT_PH <:+: SYSTEM_PROMPT := by
  refine C2_amended_no_placeholder_survives.2 (fun _ => ⟨0, by decide⟩) id Split.train
    "smiles".data true [⟨"CCO".data, "C2H6O".data⟩] (by decide)
    (conversation_train_i2s ⟨0, by decide⟩ 0 "CCO".data "C2H6O".data "smiles".data true)
    (by decide) ⟨ROLE_SYSTEM, SYSTEM_PROMPT⟩ (by decide)

/-- C5: both generators are instances of the per-record skip-and-continue
scheme `genAux`, and for any per-record assembly that fails on record `i`
of `n` input records, record `i` is not yielded, every other record whose
assembly succeeds is still yielded, the output has at most `n - 1`
records, and the batch never aborts (the generator is a total function). -/
theorem C5_skip_and_continue :
    (∀ (canon enc : Str → Option Str) (choose : Nat → Fin PROMPT_TEMPLATES_S2F.length)
        (shuffle : List RawRecord → List RawRecord) (split : Split)
        (format : Str) (token : Bool) (rows : List RawRecord),
        gen_s2f canon enc choose shuffle split format token rows =
          genAux (assemble_s2f canon enc choose shuffle split rows format token) 0 rows) ∧
    (∀ (choose : Nat → Fin PROMPT_TEMPLATES_I2S.length)
        (shuffle : List RawRecord → List RawRecord) (split : Split)
        (format : Str) (token : Bool) (rows : List RawRecord),
        gen_i2s choose shuffle split format token rows =
          genAux (assemble_i2s choose shuffle split rows format token) 0 rows) ∧
    (∀ (assemble : Nat → RawRecord → Option ConvRecord) (rows : List RawRecord)
        (i : Nat) (hi : i < rows.length),
        assemble i (rows.get ⟨i, hi⟩) = none →
        (genAux assemble 0 rows).length ≤ rows.length - 1 ∧
        ∀ (j : Nat) (hj : j < rows.length) (rec : ConvRecord),
          assemble j (rows.get ⟨j, hj⟩) = some rec →
          rec ∈ genAux assemble 0 rows) := by
  refine ⟨fun _ _ _ _ _ _ _ _ => rfl, fun _ _ _ _ _ _ => rfl, ?_⟩
  intro assemble rows i hi hnone
  constructor
  · have hlt := genAux_length_lt 0 rows i hi (by rwa [Nat.zero_add])
    omega
  · intro j hj rec hsome
    exact genAux_mem j hj (by rwa [Nat.zero_add])

theorem C5_witness :
    (genAux (fun _ _ => none) 0 [⟨"CCO".data, "C2H6O".data⟩]).length ≤ 0 :=
  ((C5_skip_and_continue.2.2 (fun _ _ => none) [⟨"CCO".data, "C2H6O".data⟩] 0
    (by decide) rfl).1)

/-- A successful s2f assembly carries its enumeration index as the record
id. -/
theorem assemble_s2f_id {canon enc : Str → Option Str}
    {choose : Nat → Fin PROMPT_TEMPLATES_S2F.length}
    {shuffle : List RawRecord → List RawRecord} {split : Split}
    {rows : List RawRecord} {format : Str} {token : Bool}
    {j : Nat} {item : RawRecord} {rec : ConvRecord}
    (h : assemble_s2f canon enc choose shuffle split rows format token j item = some rec) :
    rec.id = j := by
  cases split with
  | train =>
    obtain ⟨_, _, _, _, rfl⟩ := conversation_train_s2f_inv (h :
      conversation_train_s2f canon enc (choose j) j item.input item.output format token =
        some rec)
    rfl
  | dev =>
    obtain ⟨_, _, _, _, rfl⟩ := conversation_train_s2f_inv (h :
      conversation_train_s2f canon enc (choose j) j item.input item.output format token =
        some rec)
    rfl
  | test =>
    obtain ⟨_, _, _, _, rfl⟩ := conversation_test_s2f_inv (h :
      conversation_test_s2f canon enc (choose j) j item.input item.output none format token =
        some rec)
    rfl

/-- A successful i2s assembly carries its enumeration index as the record
id. -/
theorem assemble_i2s_id {choose : Nat → Fin PROMPT_TEMPLATES_I2S.length}
    {shuffle : List RawRecord → List RawRecord} {split : Split}
    {rows : List RawRecord} {format : Str} {token : Bool}
    {j : Nat} {item : RawRecord} {rec : ConvRecord}
    (h : assemble_i2s choose shuffle split rows format token j item = some rec) :
    rec.id = j := by
  cases split with
  | train =>
    obtain rfl := Option.some.inj (h :
      some (conversation_train_i2s (choose j) j item.input item.output format token) =
        some rec)
    rfl
  | dev =>
    obtain rfl := Option.some.inj (h :
      some (conversation_train_i2s (choose j) j item.input item.output format token) =
        some rec)
    rfl
  | test =>
    obtain rfl := Option.some.inj (h :
      some (conversation_test_i2s (choose j) j item.input item.output none format token) =
        some rec)
    rfl

/-- C9: in both pipelines every emitted record's id is the zero-based
enumeration index of its source row in the input split, assigned before
any filtering: every emitted record is the successful assembly of the row
at index `id`, and conversely every row whose assembly succeeds is
emitted with its own index as id.  Dropping a record therefore leaves the
ids of later records unchanged, producing a gap instead of a sequential
renumbering. -/
theorem C9_ids_are_source_indices :
    (∀ (canon enc : Str → Option Str) (choose : Nat → Fin PROMPT_TEMPLATES_S2F.length)
        (shuffle : List RawRecord → List RawRecord) (split : Split)
        (format : Str) (token : Bool) (rows : List RawRecord) (rec : ConvRecord),
        rec ∈ gen_s2f canon enc choose shuffle split format token rows →
        ∃ j, ∃ hj : j < rows.length, rec.id = j ∧
          assemble_s2f canon enc choose shuffle split rows format token j
            (rows.get ⟨j, hj⟩) = some rec) ∧
    (∀ (canon enc : Str → Option Str) (choose : Nat → Fin PROMPT_TEMPLATES_S2F.length)
        (shuffle : List RawRecord → List RawRecord) (split : Split)
        (format : Str) (token : Bool) (rows : List RawRecord)
        (j : Nat) (hj : j < rows.length) (rec : ConvRecord),
        assemble_s2f canon enc choose shuffle split rows format token j
          (rows.get ⟨j, hj⟩) = some rec →
        rec ∈ gen_s2f canon enc choose shuffle split format token rows ∧ rec.id = j) ∧
    (∀ (choose : Nat → Fin PROMPT_TEMPLATES_I2S.length)
        (shuffle : List RawRecord → List RawRecord) (split : Split)
        (format : Str) (token : Bool) (rows : List RawRecord) (rec : ConvRecord),
        rec ∈ gen_i2s choose shuffle split format token rows →
        ∃ j, ∃ hj : j < rows.length, rec.id = j ∧
          assemble_i2s choose shuffle split rows format token j
            (rows.get ⟨j, hj⟩) = some rec) ∧
    (∀ (choose : Nat → Fin PROMPT_TEMPLATES_I2S.length)
        (shuffle : List RawRecord → List RawRecord) (split : Split)
        (format : Str) (token : Bool) (rows : List RawRecord)
        (j : Nat) (hj : j < rows.length) (rec : ConvRecord),
        assemble_i2s choose shuffle split rows format token j
          (rows.get ⟨j, hj⟩) = some rec →
        rec ∈ gen_i2s choose shuffle split format token rows ∧ rec.id = j) := by
  refine ⟨?_, ?_, ?_, ?_⟩
  · intro canon enc choose shuffle split format token rows rec hrec
    obtain ⟨j, hj, hass⟩ := mem_genAux hrec
    rw [Nat.zero_add] at hass
    exact ⟨j, hj, assemble_s2f_id hass, hass⟩
  · intro canon enc choose shuffle split format token rows j hj rec hass
    exact ⟨genAux_mem j hj (by rwa [Nat.zero_add]), assemble_s2f_id hass⟩
  · intro choose shuffle split format token rows rec hrec
    obtain ⟨j, hj, hass⟩ := mem_genAux hrec
    rw [Nat.zero_add] at hass
    exact ⟨j, hj, assemble_i2s_id hass, hass⟩
  · intro choose shuffle split format token rows j hj rec hass
    exact ⟨genAux_mem j hj (by rwa [Nat.zero_add]), assemble_i2s_id hass⟩

set_option maxRecDepth 40000 in
theorem C9_witness :
    (conversation_train_i2s ⟨0, by decide⟩ 1 "b".data "B".data "smiles".data true) ∈
      gen_i2s (fun _ => ⟨0, by decide⟩) id Split.train "smiles".data true
        [⟨"a".data, "A".data⟩, ⟨"b".data, "B".data⟩] ∧
    (conversation_train_i2s ⟨0, by decide⟩ 1 "b".data "B".data "smiles".data true).id = 1 :=
  C9_ids_are_source_indices.2.2.2 (fun _ => ⟨0, by decide⟩) id Split.train "smiles".data true
    [⟨"a".data, "A".data⟩, ⟨"b".data, "B".data⟩] 1 (by decide) _ rfl

/-- C6 counterexample: rendering a test conversation over an empty
candidate pool with a positive requested few-shot count does not produce
any prompt at all: `random.sample` raises and the generator's try-block
drops the record, whereas the same rendering with count 0 does produce a
record. -/
theorem C6_counterexample :
    render_test_s2f (fun s => some s) (fun s => some s) ⟨0, by decide⟩ 0 "CCO".data
        "C2H6O".data [] (some 5) id "smiles".data true = none ∧
    (render_test_s2f (fun s => some s) (fun s => some s) ⟨0, by decide⟩ 0 "CCO".data
        "C2H6O".data [] (some 0) id "smiles".data true).isSome = true :=
  ⟨rfl, rfl⟩

/-- C6 amended: rendering a test conversation with few-shot count zero or
`None`, or with an empty few-shots list passed to the test assembler,
produces a record identical to the one rendered with no few-shot examples
(no preamble present); but with an empty candidate pool and a positive
requested count the sampler raises, so the record is dropped instead of
being rendered without a few-shot block. -/
theorem C6_amended_few_shot_rendering :
    (∀ shuffled, generate_few_shot_examples shuffled none = .ok none) ∧
    (∀ shuffled, generate_few_shot_examples shuffled (some 0) = .ok none) ∧
    (∀ (canon enc : Str → Option Str) (tidx : Fin PROMPT_TEMPLATES_S2F.length)
        (id : Nat) (input output : Str) (pool : List RawRecord)
        (shuffle : List RawRecord → List RawRecord) (format : Str) (token : Bool),
        render_test_s2f canon enc tidx id input output pool (some 0) shuffle format token =
          conversation_test_s2f canon enc tidx id input output none format token ∧
        render_test_s2f canon enc tidx id input output pool none shuffle format token =
          conversation_test_s2f canon enc tidx id input output none format token) ∧
    (∀ (canon enc : Str → Option Str) (tidx : Fin PROMPT_TEMPLATES_S2F.length)
        (id : Nat) (input output : Str) (format : Str) (token : Bool),
        conversation_test_s2f canon enc tidx id input output (some []) format token =
          conversation_test_s2f canon enc tidx id input output none format token) ∧
    (∀ (tidx : Fin PROMPT_TEMPLATES_I2S.length) (id : Nat) (input output : Str)
        (pool : List RawRecord) (shuffle : List RawRecord → List RawRecord)
        (format : Str) (token : Bool),
        render_test_i2s tidx id input output pool (some 0) shuffle format token =
          some (conversation_test_i2s tidx id input output none format token) ∧
        render_test_i2s tidx id input output pool none shuffle format token =
          some (conversation_test_i2s tidx id input output none format token)) ∧
    (∀ (tidx : Fin PROMPT_TEMPLATES_I2S.length) (id : Nat) (input output : Str)
        (format : Str) (token : Bool),
        conversation_test_i2s tidx id input output (some []) format token =
          conversation_test_i2s tidx id input output none format token) ∧
    (∀ k : Nat, 0 < k → generate_few_shot_examples [] (some k) = .error ()) := by
  refine ⟨fun _ => rfl, fun _ => rfl, fun _ _ _ _ _ _ _ _ _ _ => ⟨rfl, rfl⟩,
    fun _ _ _ _ _ _ _ _ => rfl, fun _ _ _ _ _ _ _ _ => ⟨rfl, rfl⟩,
    fun _ _ _ _ _ _ => rfl, ?_⟩
  intro k hk
  cases k with
  | zero => exact absurd hk (lt_irrefl 0)
  | succ n => simp [generate_few_shot_examples]

theorem C6_amended_witness :
    generate_few_shot_examples [] (some 5) = .error () :=
  C6_amended_few_shot_rendering.2.2.2.2.2.2 5 (by decide)

/-! ## Occurrence and count lemmas for the multi-image question -/

theorem countFuel_nilList (pat : Str) : ∀ fuel, countFuel pat fuel [] = 0 := by
  intro fuel
  cases fuel <;> rfl

theorem countFuel_congr {pat : Str} :
    ∀ (f1 : Nat) {f2 : Nat} {s : Str}, s.length ≤ f1 → s.length ≤ f2 →
      countFuel pat f1 s = countFuel pat f2 s := by
  intro f1
  induction f1 with
  | zero =>
    intro f2 s h1 _
    obtain rfl : s = [] := List.length_eq_zero.mp (Nat.le_zero.mp h1)
    rw [countFuel_nilList, countFuel_nilList]
  | succ f ih =>
    intro f2 s h1 h2
    cases s with
    | nil => rw [countFuel_nilList, countFuel_nilList]
    | cons c cs =>
      cases f2 with
      | zero => simp at h2
      | succ f2' =>
        simp only [countFuel]
        by_cases hcond : pat ≠ [] ∧ pat <+: (c :: cs)
        · rw [if_pos hcond, if_pos hcond]
          congr 1
          have hp := List.length_pos.mpr hcond.1
          simp only [List.length_cons] at h1 h2
          apply ih <;> (simp only [List.length_drop, List.length_cons]; omega)
        · rw [if_neg hcond, if_neg hcond]
          simp only [List.length_cons] at h1 h2
          apply ih <;> omega

theorem pyCount_nil (pat : Str) : pyCount pat [] = 0 := rfl

theorem pyCount_cons_pos {pat : Str} {c : Char} {cs : Str}
    (h1 : pat ≠ []) (h2 : pat <+: c :: cs) :
    pyCount pat (c :: cs) = 1 + pyCount pat ((c :: cs).drop pat.length) := by
  show countFuel pat (c :: cs).length (c :: cs) = _
  simp only [List.length_cons, countFuel]
  rw [if_pos ⟨h1, h2⟩]
  congr 1
  have hp := List.length_pos.mpr h1
  apply countFuel_congr
  · simp only [List.length_drop, List.length_cons]
    omega
  · exact Nat.le_refl _

theorem pyCount_cons_neg {pat : Str} {c : Char} {cs : Str}
    (h : ¬ (pat ≠ [] ∧ pat <+: c :: cs)) :
    pyCount pat (c :: cs) = pyCount pat cs := by
  show countFuel pat (c :: cs).length (c :: cs) = _
  simp only [List.length_cons, countFuel]
  rw [if_neg h]
  rfl

theorem pyCount_eq_zero {pat : Str} :
    ∀ {s : Str}, ¬ pat <:+: s → pyCount pat s = 0 := by
  intro s
  induction s with
  | nil => intro _; exact pyCount_nil pat
  | cons c cs ih =>
    intro h
    have hp : ¬ pat <+: c :: cs := fun hp => h hp.isInfix
    rw [pyCount_cons_neg (fun hc => hp hc.2)]
    exact ih (fun hi => h (List.infix_cons hi))

/-- An occurrence of a pattern at some position of a dropped-suffix is an
occurrence in the whole string. -/
theorem infix_of_prefix_drop {pat s : Str} {i : Nat} (h : pat <+: s.drop i) :
    pat <:+: s :=
  h.isInfix.trans (List.drop_suffix i s).isInfix

/-- A pattern that avoids the separator character `c` and has no
occurrence inside `q` cannot be a prefix of `q ++ c :: r`. -/
theorem not_prefix_of_sep {pat q r : Str} {c : Char} (hne : pat ≠ [])
    (hc : c ∉ pat) (hq : ¬ pat <:+: q) : ¬ pat <+: q ++ c :: r := by
  intro hp
  rcases prefix_append_split.mp hp with h1 | ⟨h1, h2⟩
  · exact hq h1.isInfix
  · by_cases hlen : pat.length ≤ q.length
    · have heq : q = pat := h1.eq_of_length (le_antisymm h1.length_le hlen)
      exact hq (heq ▸ List.infix_refl pat)
    · cases hdrop : pat.drop q.length with
      | nil =>
        have := congrArg List.length hdrop
        simp only [List.length_drop, List.length_nil] at this
        omega
      | cons e es =>
        rw [hdrop] at h2
        have he : e = c := (List.cons_prefix_cons.mp h2).1
        have hmem : e ∈ pat := by
          apply List.drop_subset q.length pat
          rw [hdrop]
          exact List.mem_cons_self _ _
        exact hc (he ▸ hmem)

theorem replicate_flatten_succ (pat : Str) (k : Nat) :
    (List.replicate (k + 1) pat).flatten = pat ++ (List.replicate k pat).flatten := by
  rw [List.replicate_succ, List.flatten_cons]

/-- Occurrence positions in a `k`-fold repetition of a self-overlap-free
pattern followed by an occurrence-free tail: exactly the multiples of the
pattern length below `k` of them. -/
theorem rep_append_occurs {pat tail : Str} (hne : pat ≠ [])
    (hself : ∀ m, 0 < m → m < pat.length → ¬ pat.drop m <+: pat)
    (htail : ∀ i, ¬ pat <+: tail.drop i) :
    ∀ (k i : Nat),
      pat <+: ((List.replicate k pat).flatten ++ tail).drop i ↔
        ∃ j, j < k ∧ i = pat.length * j := by
  have hlen : 0 < pat.length := List.length_pos.mpr hne
  intro k
  induction k with
  | zero =>
    intro i
    simp only [List.replicate, List.flatten_nil, List.nil_append]
    constructor
    · intro h
      exact absurd h (htail i)
    · rintro ⟨j, hj, -⟩
      omega
  | succ n ih =>
    intro i
    rw [replicate_flatten_succ, List.append_assoc]
    by_cases h0 : i = 0
    · subst h0
      simp only [List.drop_zero]
      constructor
      · intro _
        exact ⟨0, Nat.succ_pos n, (Nat.mul_zero _).symm⟩
      · intro _
        exact List.prefix_append pat _
    · by_cases hbig : pat.length ≤ i
      · rw [List.drop_append_eq_append_drop, List.drop_eq_nil_of_le hbig,
          List.nil_append]
        rw [ih (i - pat.length)]
        constructor
        · rintro ⟨j, hj, hji⟩
          refine ⟨j + 1, by omega, ?_⟩
          rw [Nat.mul_succ]
          omega
        · rintro ⟨j, hj, hji⟩
          cases j with
          | zero =>
            rw [Nat.mul_zero] at hji
            omega
          | succ m =>
            refine ⟨m, by omega, ?_⟩
            rw [Nat.mul_succ] at hji
            omega
      · have hi : i ≤ pat.length := by omega
        rw [List.drop_append_eq_append_drop,
          show (List.drop (i - pat.length) ((List.replicate n pat).flatten ++ tail)) =
            (List.replicate n pat).flatten ++ tail by
              rw [Nat.sub_eq_zero_of_le hi, List.drop_zero]]
        constructor
        · intro hp
          exfalso
          rcases prefix_append_split.mp hp with h1 | ⟨h1, -⟩
          · have := h1.length_le
            simp only [List.length_drop] at this
            omega
          · exact hself i (by omega) (by omega) h1
        · rintro ⟨j, hj, hji⟩
          exfalso
          cases j with
          | zero => rw [Nat.mul_zero] at hji; omega
          | succ m =>
            rw [Nat.mul_succ] at hji
            have : pat.length * m ≥ 0 := Nat.zero_le _
            omega

/-- Occurrence positions in `q ++ c :: rest` when the pattern avoids `c`
and does not occur in `q`: exactly the occurrences of `rest`, shifted past
`q` and the separator. -/
theorem append_sep_occurs {pat rest : Str} {c : Char} (hne : pat ≠ [])
    (hc : c ∉ pat) :
    ∀ (q : Str), ¬ pat <:+: q →
      ∀ i, (pat <+: (q ++ c :: rest).drop i ↔
        ∃ i2, i = q.length + 1 + i2 ∧ pat <+: rest.drop i2) := by
  intro q
  induction q with
  | nil =>
    intro _ i
    cases i with
    | zero =>
      simp only [List.nil_append, List.drop_zero, List.length_nil]
      constructor
      · intro hp
        exact absurd hp (not_prefix_of_sep hne hc (by
          intro hinf
          obtain rfl := List.eq_nil_of_infix_nil hinf
          exact hne rfl))
      · rintro ⟨i2, hi2, -⟩
        omega
    | succ i' =>
      simp only [List.nil_append, List.drop_succ_cons, List.length_nil]
      constructor
      · intro hp
        exact ⟨i', by omega, hp⟩
      · rintro ⟨i2, hi2, hp⟩
        have : i2 = i' := by omega
        rwa [this] at hp
  | cons d q' ih =>
    intro hq i
    have hq' : ¬ pat <:+: q' := fun h => hq (List.infix_cons h)
    cases i with
    | zero =>
      simp only [List.drop_zero]
      constructor
      · intro hp
        exact absurd hp (not_prefix_of_sep hne hc hq)
      · rintro ⟨i2, hi2, -⟩
        simp only [List.length_cons] at hi2
        omega
    | succ i' =>
      rw [List.cons_append, List.drop_succ_cons, ih hq' i']
      constructor
      · rintro ⟨i2, hi2, hp⟩
        exact ⟨i2, by simp only [List.length_cons]; omega, hp⟩
      · rintro ⟨i2, hi2, hp⟩
        refine ⟨i2, ?_, hp⟩
        simp only [List.length_cons] at hi2
        omega

/-- Scanning a `k`-fold repetition of the pattern followed by any tail
counts `k` occurrences plus those of the tail. -/
theorem pyCount_rep_append (pat tail : Str) (hne : pat ≠ []) :
    ∀ k, pyCount pat ((List.replicate k pat).flatten ++ tail) =
      k + pyCount pat tail := by
  intro k
  induction k with
  | zero => simp only [List.replicate, List.flatten_nil, List.nil_append, Nat.zero_add]
  | succ n ih =>
    rw [replicate_flatten_succ, List.append_assoc]
    cases hpat : pat with
    | nil => exact absurd hpat hne
    | cons p ps =>
      rw [← hpat]
      have hpre : pat <+: pat ++ ((List.replicate n pat).flatten ++ tail) :=
        List.prefix_append _ _
      rw [show pat ++ ((List.replicate n pat).flatten ++ tail) =
            p :: (ps ++ ((List.replicate n pat).flatten ++ tail)) by rw [hpat]; rfl] at hpre ⊢
      rw [pyCount_cons_pos hne hpre]
      rw [show (p :: (ps ++ ((List.replicate n pat).flatten ++ tail))).drop pat.length =
            (List.replicate n pat).flatten ++ tail by
          rw [show p :: (ps ++ ((List.replicate n pat).flatten ++ tail)) =
                pat ++ ((List.replicate n pat).flatten ++ tail) by rw [hpat]; rfl]
          exact List.drop_left _ _]
      rw [ih]
      omega

/-- Scanning `q ++ c :: rest` with a pattern that avoids `c` and does not
occur in `q` counts exactly the occurrences of `rest`. -/
theorem pyCount_append_sep {pat rest : Str} {c : Char} (hne : pat ≠ [])
    (hc : c ∉ pat) :
    ∀ (q : Str), ¬ pat <:+: q →
      pyCount pat (q ++ c :: rest) = pyCount pat rest := by
  intro q
  induction q with
  | nil =>
    intro _
    rw [List.nil_append]
    rw [pyCount_cons_neg (fun hcond => (not_prefix_of_sep hne hc (by
      intro hinf
      obtain rfl := List.eq_nil_of_infix_nil hinf
      exact hne rfl) : ¬ pat <+: [] ++ c :: rest) (by simpa using hcond.2))]
  | cons d q' ih =>
    intro hq
    have hq' : ¬ pat <:+: q' := fun h => hq (List.infix_cons h)
    rw [List.cons_append]
    rw [pyCount_cons_neg (fun hcond => (not_prefix_of_sep hne hc hq :
      ¬ pat <+: (d :: q') ++ c :: rest) (by simpa using hcond.2))]
    exact ih hq'

/-- C8: a successful multi-image synthesis over `k` sampled caption/image
pairs whose synthesized question does not itself contain the
image-placeholder token emits a record whose `images` list is exactly the
`k` sampled image paths in sampling order, and whose question text
contains exactly `k` copies of the token, all contiguous, at the very
start (when the coin flip prepends) or at the very end (when it appends)
of the text. -/
theorem C8_multi_image_record (pairs : List PretrainPair) (q a : Str) (coin : Bool)
    (hq : ¬ IMAGE_TOKEN <:+: q) :
    (build_convo pairs q a coin).images = pairs.map (fun e => e.path) ∧
    (build_convo pairs q a coin).images.length = pairs.length ∧
    ∃ content, (build_convo pairs q a coin).messages.map Message.content = [content, a] ∧
      pyCount IMAGE_TOKEN content = pairs.length ∧
      ((coin = true ∧ ∀ i, (occursAt IMAGE_TOKEN content i ↔
          ∃ j, j < pairs.length ∧ i = IMAGE_TOKEN.length * j)) ∨
       (coin = false ∧ ∀ i, (occursAt IMAGE_TOKEN content i ↔
          ∃ j, j < pairs.length ∧ i = q.length + 1 + IMAGE_TOKEN.length * j))) := by
  have hne : IMAGE_TOKEN ≠ [] := by decide
  have hsp : ' ' ∉ IMAGE_TOKEN := by decide
  have hself0 : ∀ m, m < IMAGE_TOKEN.length → 0 < m → ¬ IMAGE_TOKEN.drop m <+: IMAGE_TOKEN := by
    decide
  have hself : ∀ m, 0 < m → m < IMAGE_TOKEN.length → ¬ IMAGE_TOKEN.drop m <+: IMAGE_TOKEN :=
    fun m h0 hlt => hself0 m hlt h0
  refine ⟨rfl, by simp [build_convo], ?_⟩
  cases coin with
  | true =>
    refine ⟨imageTokens pairs.length ++ " ".data ++ q, rfl, ?_, ?_⟩
    · have hshape : imageTokens pairs.length ++ " ".data ++ q =
          (List.replicate pairs.length IMAGE_TOKEN).flatten ++ (' ' :: q) := by
        rw [List.append_assoc]
        rfl
      rw [hshape, pyCount_rep_append IMAGE_TOKEN (' ' :: q) hne pairs.length]
      have hz : pyCount IMAGE_TOKEN (' ' :: q) = 0 := by
        apply pyCount_eq_zero
        intro hinf
        rcases List.infix_cons_iff.mp hinf with h1 | h1
        · exact (not_prefix_of_sep hne hsp (by
            intro hinf2
            exact hne (List.eq_nil_of_infix_nil hinf2)) :
            ¬ IMAGE_TOKEN <+: [] ++ ' ' :: q) (by simpa using h1)
        · exact hq h1
      rw [hz]
      omega
    · refine Or.inl ⟨rfl, ?_⟩
      intro i
      have hshape : imageTokens pairs.length ++ " ".data ++ q =
          (List.replicate pairs.length IMAGE_TOKEN).flatten ++ (' ' :: q) := by
        rw [List.append_assoc]
        rfl
      unfold occursAt
      rw [hshape]
      apply rep_append_occurs hne hself
      intro i2
      cases i2 with
      | zero =>
        simp only [List.drop_zero]
        exact (not_prefix_of_sep hne hsp (by
          intro hinf2
          exact hne (List.eq_nil_of_infix_nil hinf2)) : ¬ IMAGE_TOKEN <+: [] ++ ' ' :: q)
      | succ i3 =>
        rw [List.drop_succ_cons]
        intro hp
        exact hq (infix_of_prefix_drop hp)
  | false =>
    refine ⟨q ++ " ".data ++ imageTokens pairs.length, rfl, ?_, ?_⟩
    · have hshape : q ++ " ".data ++ imageTokens pairs.length =
          q ++ (' ' :: imageTokens pairs.length) := by
        rw [List.append_assoc]
        rfl
      rw [hshape, pyCount_append_sep hne hsp q hq]
      have : imageTokens pairs.length =
          (List.replicate pairs.length IMAGE_TOKEN).flatten ++ [] := by
        rw [List.append_nil]
        rfl
      rw [this, pyCount_rep_append IMAGE_TOKEN [] hne pairs.length, pyCount_nil]
      omega
    · refine Or.inr ⟨rfl, ?_⟩
      intro i
      have hshape : q ++ " ".data ++ imageTokens pairs.length =
          q ++ (' ' :: imageTokens pairs.length) := by
        rw [List.append_assoc]
        rfl
      unfold occursAt
      rw [hshape, append_sep_occurs hne hsp q hq i]
      constructor
      · rintro ⟨i2, hi2, hp⟩
        have : imageTokens pairs.length =
            (List.replicate pairs.length IMAGE_TOKEN).flatten ++ [] := by
          rw [List.append_nil]
          rfl
        rw [this] at hp
        obtain ⟨j, hj, hji⟩ := (rep_append_occurs hne hself
          (fun i3 => by simp [List.prefix_nil, hne]) pairs.length i2).mp hp
        exact ⟨j, hj, by omega⟩
      · rintro ⟨j, hj, hji⟩
        refine ⟨IMAGE_TOKEN.length * j, by omega, ?_⟩
        have : imageTokens pairs.length =
            (List.replicate pairs.length IMAGE_TOKEN).flatten ++ [] := by
          rw [List.append_nil]
          rfl
        rw [this]
        exact (rep_append_occurs hne hself
          (fun i3 => by simp [List.prefix_nil, hne]) pairs.length _).mpr ⟨j, hj, rfl⟩

theorem C8_witness :
    (build_convo [⟨"a steaming cup of coffee".data, "img0.jpg".data⟩]
      "What is shown?".data "A cup.".data true).images.length = 1 :=
  (C8_multi_image_record [⟨"a steaming cup of coffee".data, "img0.jpg".data⟩]
    "What is shown?".data "A cup.".data true (by decide)).2.1
